import Mathlib

/-!
# Verification of the release-tracker core (`pkg/releasetracker`)

This file is a shallow embedding, in Lean 4, of the version-resolution
pipeline of the repository: the semantic-version parsing/ordering/constraint
library it delegates to (`Masterminds/semver`, v1 line), and the tracker's own
functions `exec`, `execAll`, `extractVersionStrings`, `versionsToReleases`,
`versionStringsToSemvers`, `GetProvider`, `GetReleases` and `Latest`.

Modelling conventions:
* Go strings are Lean `String`s; most character processing happens on
  `String.data` (`List Char`).  Go compares strings by UTF-8 bytes, which
  coincides with comparing the code-point sequences, modelled by
  `listCharGt`.
* Go `int64` values arising from `strconv.ParseInt` are modelled as `Int`
  with the explicit bounds `-(2^63) ≤ v ≤ 2^63 - 1`; parsing fails outside
  those bounds exactly as in Go.
* Fallible Go functions returning `(T, error)` become `Except String T`.
* Effects (shell execution, HTTP, file resolution, the JSONPath query
  engine and the map-key normalisation pass) are abstracted as *inputs* to
  the functions that consume their results; the code translated here is the
  code that runs after those collaborator calls return.
-/

deriving instance DecidableEq for Except

namespace ReleaseTracker

/-- Decimal digits, as used by `strconv.ParseInt` and the semver grammar. -/
def isDigitCh (c : Char) : Bool := '0' ≤ c && c ≤ '9'

/-- The character class `[0-9|x|X|\*]` of the version-segment part of
`SemVerRegex` (note: the `|` characters are *inside* the class in the Go
regex, so `|` is literally admitted). -/
def isSegCh (c : Char) : Bool :=
  isDigitCh c || c = '|' || c = 'x' || c = 'X' || c = '*'

/-- The character class `[0-9A-Za-z\-]` of prerelease/build identifiers. -/
def isPreCh (c : Char) : Bool :=
  isDigitCh c || ('A' ≤ c && c ≤ 'Z') || ('a' ≤ c && c ≤ 'z') || c = '-'

/-- Whitespace as matched by `\s` in Go's RE2 (`[\t\n\f\r ]`). -/
def isSpaceGo (c : Char) : Bool :=
  c = ' ' || c = '\t' || c = '\n' || c = '\x0c' || c = '\r'

/-- Numeric value of a digit list, most significant first.
Helper for the `strconv.ParseInt` model. -/
def digitsVal : List Char → Nat
  | [] => 0
  | c :: rest => digitsVal rest + c.toNat.sub 48 * 10 ^ rest.length

/-- Model of Go `strconv.ParseInt(s, 10, 64)`: optional sign, one or more
decimal digits, result within the `int64` range; the error text distinguishes
syntax from range errors as `strconv` does. -/
def goParseInt64E (s : List Char) : Except String Int :=
  let quoted := "\"" ++ String.mk s ++ "\""
  let synErr : Except String Int :=
    .error ("strconv.ParseInt: parsing " ++ quoted ++ ": invalid syntax")
  let rangeErr : Except String Int :=
    .error ("strconv.ParseInt: parsing " ++ quoted ++ ": value out of range")
  match s with
  | [] => synErr
  | c :: rest =>
    let (neg, digits) :=
      if c = '-' then (true, rest)
      else if c = '+' then (false, rest)
      else (false, s)
    if digits.isEmpty then synErr
    else if !digits.all isDigitCh then synErr
    else
      let n := digitsVal digits
      if neg then
        if n ≤ 2 ^ 63 then .ok (-(n : Int)) else rangeErr
      else
        if n ≤ 2 ^ 63 - 1 then .ok (n : Int) else rangeErr

/-- `goParseInt64E` with the error dropped (for call sites that only test
`err != nil`). -/
def goParseInt64 (s : List Char) : Option Int := (goParseInt64E s).toOption

/-- Go byte-wise string comparison `s > o`, on code-point lists (UTF-8 byte
order agrees with code-point order). -/
def listCharGt : List Char → List Char → Bool
  | [], _ => false
  | _ :: _, [] => true
  | a :: as, b :: bs =>
    if b.toNat < a.toNat then true
    else if a.toNat < b.toNat then false
    else listCharGt as bs

/-- Model of Go `strings.Split(s, sep)` for a one-character separator. -/
def splitOnCh (sep : Char) : List Char → List (List Char)
  | [] => [[]]
  | c :: rest =>
    if c = sep then [] :: splitOnCh sep rest
    else
      match splitOnCh sep rest with
      | h :: t => (c :: h) :: t
      | [] => [[c]]

/-- The `semver.Version` struct of Masterminds/semver v1.  `major`, `minor`
and `patch` are Go `int64` values that are always non-negative (they come
from digit-only segments), so they are carried as `Nat`. -/
structure SemVersion where
  major : Nat
  minor : Nat
  patch : Nat
  pre : String
  metadata : String
  original : String
deriving Repr, DecidableEq

/-- The submatches of the (anchored) `SemVerRegex` that `NewVersion` uses:
`m[1]` (first segment), `m[2]`/`m[3]` (`.`-prefixed second/third segments or
empty), `m[5]` (prerelease without its `-`), `m[8]` (build metadata without
its `+`), plus whether the optional leading `v` was present. -/
structure CvParts where
  hadV : Bool
  seg1 : List Char
  dotSeg2 : List Char
  dotSeg3 : List Char
  preStr : List Char
  metaStr : List Char
deriving Repr, DecidableEq

/-- Greedy matcher for `identifier(.identifier)*` with `identifier = [0-9A-Za-z-]+`
(the prerelease/metadata sub-grammar): consumes the maximal such span, exactly
as the greedy regex group does, and returns the consumed span and the rest.
Fails (consuming nothing) if no identifier starts here.  The fuel is the
length of the input, which always suffices. -/
def matchIdents : Nat → List Char → Option (List Char × List Char)
  | _, l =>
    let (p1, r1) := l.span isPreCh
    if p1.isEmpty then none
    else some (matchIdentsMore l.length p1 r1)
where
  /-- consume further `.identifier` groups greedily -/
  matchIdentsMore : Nat → List Char → List Char → List Char × List Char
    | 0, acc, r => (acc, r)
    | fuel + 1, acc, r =>
      match r with
      | '.' :: rest =>
        let (p, r2) := rest.span isPreCh
        if p.isEmpty then (acc, r)
        else matchIdentsMore fuel (acc ++ '.' :: p) r2
      | _ => (acc, r)

/-- Matcher for the version grammar `SemVerRegex`
(`v?seg(\.seg)?(\.seg)?(-pre)?(\+meta)?` with `seg = [0-9|x|X|\*]+`),
applied greedily at the head of the input; returns the submatches and the
unconsumed rest.  Callers requiring an anchored match check that the rest is
empty (respectively all-whitespace). -/
def matchCv (l : List Char) : Option (CvParts × List Char) :=
  let (hadV, l1) := match l with
    | 'v' :: rest => (true, rest)
    | _ => (false, l)
  let (seg1, r1) := l1.span isSegCh
  if seg1.isEmpty then none
  else
    let (dotSeg2, r2) := matchDotSeg r1
    let (dotSeg3, r3) :=
      if dotSeg2.isEmpty then (([] : List Char), r2) else matchDotSeg r2
    let (preStr, r4) :=
      match r3 with
      | '-' :: rest =>
        match matchIdents rest.length rest with
        | some (p, r') => (p, r')
        | none => (([] : List Char), r3)
      | _ => (([] : List Char), r3)
    -- if the `-` could not start a prerelease group, it stays unconsumed
    let consumedPre := match r3 with
      | '-' :: _ => !preStr.isEmpty
      | _ => false
    let r4' := if consumedPre then r4 else r3
    let (metaStr, r5) :=
      match r4' with
      | '+' :: rest =>
        match matchIdents rest.length rest with
        | some (p, r') => (p, r')
        | none => (([] : List Char), r4')
      | _ => (([] : List Char), r4')
    let consumedMeta := match r4' with
      | '+' :: _ => !metaStr.isEmpty
      | _ => false
    let r5' := if consumedMeta then r5 else r4'
    some ({ hadV := hadV, seg1 := seg1, dotSeg2 := dotSeg2,
            dotSeg3 := dotSeg3, preStr := if consumedPre then preStr else [],
            metaStr := if consumedMeta then metaStr else [] }, r5')
where
  /-- optional `\.seg` group: consumed only when a nonempty segment follows
  the dot (otherwise the greedy optional group is skipped). -/
  matchDotSeg : List Char → List Char × List Char
    | '.' :: rest =>
      let (p, r) := rest.span isSegCh
      if p.isEmpty then (([] : List Char), '.' :: rest)
      else ('.' :: p, r)
    | r => (([] : List Char), r)

/-- `ErrInvalidSemVer` of Masterminds/semver v1. -/
def errInvalidSemVer : String := "Invalid Semantic Version"

/-- Model of Masterminds/semver v1 `NewVersion`: match the anchored
`SemVerRegex`, then `strconv.ParseInt` each present segment (missing minor
and patch segments default to `0`); the prerelease and metadata submatches
and the original input string are stored verbatim. -/
def NewVersion (s : String) : Except String SemVersion :=
  match matchCv s.data with
  | none => .error errInvalidSemVer
  | some (parts, rest) =>
    if !rest.isEmpty then .error errInvalidSemVer
    else
      let segErr : String → Except String SemVersion := fun e =>
        .error ("Error parsing version segment: " ++ e)
      match goParseInt64E parts.seg1 with
      | .error e => segErr e
      | .ok major =>
        let minorRes :=
          if parts.dotSeg2.isEmpty then Except.ok (0 : Int)
          else goParseInt64E (parts.dotSeg2.drop 1)
        match minorRes with
        | .error e => segErr e
        | .ok minor =>
          let patchRes :=
            if parts.dotSeg3.isEmpty then Except.ok (0 : Int)
            else goParseInt64E (parts.dotSeg3.drop 1)
          match patchRes with
          | .error e => segErr e
          | .ok patch =>
            .ok { major := major.toNat, minor := minor.toNat,
                  patch := patch.toNat,
                  pre := String.mk parts.preStr,
                  metadata := String.mk parts.metaStr,
                  original := s }

/-- `compareSegment` of Masterminds/semver v1. -/
def compareSegment (v o : Nat) : Int :=
  if v < o then -1 else if v > o then 1 else 0

/-- `comparePrePart` of Masterminds/semver v1: compare one dot-separated
prerelease identifier pair.  Both identifiers are fed to
`strconv.ParseInt`; two numbers compare by value, two non-numbers compare
as byte strings, and a number is below a non-number. -/
def comparePrePart (s o : List Char) : Int :=
  if s = o then 0
  else if s = [] then (if o ≠ [] then -1 else 1)
  else if o = [] then (if s ≠ [] then 1 else -1)
  else
    match goParseInt64 o, goParseInt64 s with
    | none, none => if listCharGt s o then 1 else -1
    | none, some _ => -1
    | some _, none => 1
    | some oi, some si => if si > oi then 1 else -1

/-- Tail of the `comparePrerelease` index loop once the first list is
exhausted: remaining identifiers compare against the empty placeholder. -/
def comparePreListNilL : List (List Char) → Int
  | [] => 0
  | o :: os =>
    if comparePrePart [] o ≠ 0 then comparePrePart [] o
    else comparePreListNilL os

/-- Tail of the loop once the second list is exhausted. -/
def comparePreListNilR : List (List Char) → Int
  | [] => 0
  | s :: ss =>
    if comparePrePart s [] ≠ 0 then comparePrePart s []
    else comparePreListNilR ss

/-- The index loop of `comparePrerelease`: walk both identifier lists in
parallel, padding the shorter one with empty placeholders, and return the
first nonzero `comparePrePart`.  (Factored through the two tail helpers so
the recursion is structural.) -/
def comparePreList : List (List Char) → List (List Char) → Int
  | [], b => comparePreListNilL b
  | s :: ss, [] =>
    if comparePrePart s [] ≠ 0 then comparePrePart s []
    else comparePreListNilR ss
  | s :: ss, o :: os =>
    if comparePrePart s o ≠ 0 then comparePrePart s o
    else comparePreList ss os

/-- `comparePrerelease` of Masterminds/semver v1: split both prerelease
strings on `.` and compare identifier-wise. -/
def comparePrerelease (v o : String) : Int :=
  comparePreList (splitOnCh '.' v.data) (splitOnCh '.' o.data)

/-- The prerelease block at the end of `Version.Compare`: no prerelease on
either side is a tie, a prerelease loses to no-prerelease, otherwise
`comparePrerelease` decides. -/
def svPreCmp (ps po : String) : Int :=
  if ps = "" && po = "" then 0
  else if ps = "" then 1
  else if po = "" then -1
  else comparePrerelease ps po

/-- `Version.Compare` of Masterminds/semver v1: major, minor, patch
numerically; a version with a prerelease is below the same triple without
one; otherwise prerelease comparison.  Build metadata is ignored. -/
def svCompare (v o : SemVersion) : Int :=
  let d1 := compareSegment v.major o.major
  if d1 ≠ 0 then d1
  else
    let d2 := compareSegment v.minor o.minor
    if d2 ≠ 0 then d2
    else
      let d3 := compareSegment v.patch o.patch
      if d3 ≠ 0 then d3
      else svPreCmp v.pre o.pre

/-- `Version.LessThan`. -/
def svLessThan (v o : SemVersion) : Bool := svCompare v o < 0

/-- `Version.Equal`. -/
def svEqual (v o : SemVersion) : Bool := svCompare v o = 0

/-- `Version.String()` of Masterminds/semver v1: canonical
`major.minor.patch[-pre][+metadata]` rendering; a leading `v` of the
original input is *not* reproduced. -/
def svString (v : SemVersion) : String :=
  toString v.major ++ "." ++ toString v.minor ++ "." ++ toString v.patch
  ++ (if v.pre ≠ "" then "-" ++ v.pre else "")
  ++ (if v.metadata ≠ "" then "+" ++ v.metadata else "")

/-- The zero `semver.Version{}` (Go zero value), the initial value of the
running maximum in `Tracker.Latest`. -/
def zeroVersion : SemVersion :=
  { major := 0, minor := 0, patch := 0, pre := "", metadata := "", original := "" }

/-! ## Constraints (Masterminds/semver v1 `constraints.go`) -/

/-- The parsed form of one comparison in a constraint expression
(`constraint` struct): operator, compiled comparison version, original
version text, and the wildcard (`x`/`*`/missing segment) dirty flags. -/
structure SvConstraint where
  op : String
  con : SemVersion
  orig : String
  minorDirty : Bool
  patchDirty : Bool
  dirty : Bool
deriving Repr, DecidableEq

/-- The shared guard: a version carrying a prerelease never satisfies a
comparison whose constraint version has no prerelease. -/
def preExcluded (v : SemVersion) (c : SvConstraint) : Bool :=
  v.pre ≠ "" && c.con.pre = ""

/-- `constraintTilde`. -/
def constraintTilde (v : SemVersion) (c : SvConstraint) : Bool :=
  if preExcluded v c then false
  else if svLessThan v c.con then false
  else if c.con.major = 0 && c.con.minor = 0 && c.con.patch = 0 &&
      !c.minorDirty && !c.patchDirty then true
  else if v.major ≠ c.con.major then false
  else if v.minor ≠ c.con.minor && !c.minorDirty then false
  else true

/-- `constraintTildeOrEqual` (the `""` and `"="` operators). -/
def constraintTildeOrEqual (v : SemVersion) (c : SvConstraint) : Bool :=
  if c.dirty then constraintTilde v c else svEqual v c.con

/-- `constraintNotEqual`. -/
def constraintNotEqual (v : SemVersion) (c : SvConstraint) : Bool :=
  if c.dirty then
    if preExcluded v c then false
    else if c.con.major ≠ v.major then true
    else if c.con.minor ≠ v.minor && !c.minorDirty then true
    else false
  else !(svEqual v c.con)

/-- `constraintGreaterThan`. -/
def constraintGreaterThan (v : SemVersion) (c : SvConstraint) : Bool :=
  if preExcluded v c then false else svCompare v c.con = 1

/-- `constraintLessThan`. -/
def constraintLessThan (v : SemVersion) (c : SvConstraint) : Bool :=
  if preExcluded v c then false
  else if !c.dirty then svCompare v c.con < 0
  else if v.major > c.con.major then false
  else if v.minor > c.con.minor && !c.minorDirty then false
  else true

/-- `constraintGreaterThanEqual`. -/
def constraintGreaterThanEqual (v : SemVersion) (c : SvConstraint) : Bool :=
  if preExcluded v c then false else svCompare v c.con ≥ 0

/-- `constraintLessThanEqual`. -/
def constraintLessThanEqual (v : SemVersion) (c : SvConstraint) : Bool :=
  if preExcluded v c then false
  else if !c.dirty then svCompare v c.con ≤ 0
  else if v.major > c.con.major then false
  else if v.minor > c.con.minor && !c.minorDirty then false
  else true

/-- `constraintCaret`. -/
def constraintCaret (v : SemVersion) (c : SvConstraint) : Bool :=
  if preExcluded v c then false
  else if svLessThan v c.con then false
  else if v.major ≠ c.con.major then false
  else true

/-- Dispatch on the operator string (the `constraintOps` map). -/
def constraintCheck (c : SvConstraint) (v : SemVersion) : Bool :=
  if c.op = "" || c.op = "=" then constraintTildeOrEqual v c
  else if c.op = "!=" then constraintNotEqual v c
  else if c.op = ">" then constraintGreaterThan v c
  else if c.op = "<" then constraintLessThan v c
  else if c.op = ">=" || c.op = "=>" then constraintGreaterThanEqual v c
  else if c.op = "<=" || c.op = "=<" then constraintLessThanEqual v c
  else if c.op = "~" || c.op = "~>" then constraintTilde v c
  else if c.op = "^" then constraintCaret v c
  else false

/-- `Constraints.Check`: the outer list is `||`-separated alternatives, each
an `,`-separated conjunction. -/
def checkConstraints (cs : List (List SvConstraint)) (v : SemVersion) : Bool :=
  cs.any (fun grp => grp.all (fun c => constraintCheck c v))

/-- `isX`. -/
def isX (s : List Char) : Bool := s = ['x'] || s = ['*'] || s = ['X']

/-- Match one constraint operator at the head of the input.  The Go code
matches `(=|!=|>|<|>=|=>|<=|=<|~|~>|^|)` as part of one anchored regex;
since no operator character can begin the version part of the grammar, that
is equivalent to taking the longest operator prefix. -/
def matchOp : List Char → String × List Char
  | c1 :: c2 :: rest =>
    let two := String.mk [c1, c2]
    if two = "!=" || two = ">=" || two = "=>" || two = "<=" || two = "=<"
        || two = "~>" then
      (two, rest)
    else matchOp1 (c1 :: c2 :: rest)
  | l => matchOp1 l
where
  matchOp1 : List Char → String × List Char
    | c :: rest =>
      if c = '=' || c = '>' || c = '<' || c = '~' || c = '^' then
        (String.mk [c], rest)
      else ("", c :: rest)
    | [] => ("", [])

/-- The text matched by the version part of the constraint regex (`m[2]`). -/
def cvText (p : CvParts) : List Char :=
  (if p.hadV then ['v'] else []) ++ p.seg1 ++ p.dotSeg2 ++ p.dotSeg3
  ++ (if p.preStr.isEmpty then [] else '-' :: p.preStr)
  ++ (if p.metaStr.isEmpty then [] else '+' :: p.metaStr)

/-- `parseConstraint`: match `\s*(op)\s*(version)\s*` anchored, rewrite
wildcard segments (`x`, `X`, `*`, or a missing minor segment) to `0`,
recording the dirty flags, and compile the resulting version text. -/
def parseConstraint (cstr : String) : Except String SvConstraint :=
  let impErr : Except String SvConstraint :=
    .error ("improper constraint: " ++ cstr)
  let l0 := cstr.data.dropWhile isSpaceGo
  let (op, l1) := matchOp l0
  let l2 := l1.dropWhile isSpaceGo
  match matchCv l2 with
  | none => impErr
  | some (parts, rest) =>
    if !(rest.all isSpaceGo) then impErr
    else
      let orig := String.mk (cvText parts)
      let m6 := if parts.preStr.isEmpty then ([] : List Char) else '-' :: parts.preStr
      let (ver, dirty, minorDirty, patchDirty) :=
        if isX parts.seg1 then ("0.0.0", true, false, false)
        else if parts.dotSeg2.isEmpty || isX (parts.dotSeg2.drop 1) then
          (String.mk (parts.seg1 ++ ".0.0".data ++ m6), true, true, false)
        else if isX (parts.dotSeg3.drop 1) then
          (String.mk (parts.seg1 ++ parts.dotSeg2 ++ ".0".data ++ m6), true, false, true)
        else (orig, false, false, false)
      match NewVersion ver with
      | .error _ => .error "constraint Parser Error"
      | .ok con =>
        .ok { op := op, con := con, orig := orig, minorDirty := minorDirty,
              patchDirty := patchDirty, dirty := dirty }

/-- Model of Go `strings.Split` for a (nonempty) separator string:
non-overlapping, left to right.  Fuelled structural recursion (every step
consumes at least one character, so fuel = input length suffices). -/
def splitSubF (sep : List Char) : Nat → List Char → List (List Char)
  | 0, l => [l]
  | _ + 1, [] => [[]]
  | fuel + 1, c :: rest =>
    if sep ≠ [] && sep.isPrefixOf (c :: rest) then
      [] :: splitSubF sep fuel ((c :: rest).drop sep.length)
    else
      match splitSubF sep fuel rest with
      | h :: t => (c :: h) :: t
      | [] => [[c]]

/-- Go `strings.Split(l, sep)` for a nonempty separator. -/
def splitSub (sep : List Char) (l : List Char) : List (List Char) :=
  splitSubF sep l.length l

/-- Attempt to match the hyphen-range pattern `\s*(version)\s+-\s+(version)\s*`
at the head of the input, returning the Go replacement text
`>= v1, <= v2` and the unconsumed rest. -/
def tryRange (l : List Char) : Option (List Char × List Char) :=
  let r0 := l.dropWhile isSpaceGo
  match matchCv r0 with
  | none => none
  | some (p1, r1) =>
    let (sp1, r2) := r1.span isSpaceGo
    if sp1.isEmpty then none
    else
      match r2 with
      | '-' :: r3 =>
        let (sp2, r4) := r3.span isSpaceGo
        if sp2.isEmpty then none
        else
          match matchCv r4 with
          | none => none
          | some (p2, r5) =>
            let r6 := r5.dropWhile isSpaceGo
            some ((">= ".data ++ cvText p1 ++ ", <= ".data ++ cvText p2), r6)
      | _ => none

/-- The scan underlying `rewriteRange`: find hyphen-range occurrences left to
right (greedily, as `FindAllStringSubmatch` does) and replace each by the Go
replacement text.  Identity on every string free of a
whitespace-hyphen-whitespace range pattern — the only case the tracker's
constraints exercise.  The fuel (the input length) always suffices since
every step consumes at least one input character. -/
def rewriteRangeScan : Nat → List Char → List Char
  | 0, l => l
  | _ + 1, [] => []
  | fuel + 1, c :: rest =>
    match tryRange (c :: rest) with
    | some (rep, r6) => rep ++ rewriteRangeScan fuel r6
    | none => c :: rewriteRangeScan fuel rest

/-- `rewriteRange`. -/
def rewriteRange (i : String) : String :=
  String.mk (rewriteRangeScan i.data.length i.data)

/-- Parse one `,`-separated conjunction of comparisons. -/
def parseGroup : List (List Char) → Except String (List SvConstraint)
  | [] => .ok []
  | p :: rest => do
    let c1 ← parseConstraint (String.mk p)
    let cs ← parseGroup rest
    pure (c1 :: cs)

/-- Parse the `||`-separated alternatives. -/
def parseOrGroups : List (List Char) → Except String (List (List SvConstraint))
  | [] => .ok []
  | g :: rest => do
    let c1 ← parseGroup (splitSub ",".data g)
    let cs ← parseOrGroups rest
    pure (c1 :: cs)

/-- `semver.NewConstraint`: rewrite hyphen ranges, split on `||` then `,`,
and parse every comparison. -/
def svNewConstraint (c : String) : Except String (List (List SvConstraint)) :=
  let c := rewriteRange c
  parseOrGroups (splitSub "||".data c.data)

/-! ## The tracker (`pkg/releasetracker/releasetracker.go`) -/

/-- The `Release` struct: parsed version, rendered version string,
description. -/
structure Release where
  Semver : SemVersion
  Version : String
  Description : String
deriving Repr, DecidableEq

/-- `semverToRelease`: note that `Version` is set to the *canonical
rendering* `ver.String()` (not the raw input string), and `Description` is
left at its zero value `""`. -/
def semverToRelease (ver : SemVersion) : Release :=
  { Semver := ver, Version := svString ver, Description := "" }

/-- Model of Go `%q` (`strconv.Quote`): wrap in double quotes, escaping
quotes, backslashes and the standard control characters.  (Go additionally
hex-escapes other non-printable characters; no claim exercises those.) -/
def goQuoteChar (c : Char) : List Char :=
  if c = '"' then ['\\', '"']
  else if c = '\\' then ['\\', '\\']
  else if c = '\x07' then ['\\', 'a']
  else if c = '\x08' then ['\\', 'b']
  else if c = '\x0c' then ['\\', 'f']
  else if c = '\n' then ['\\', 'n']
  else if c = '\r' then ['\\', 'r']
  else if c = '\t' then ['\\', 't']
  else if c = '\x0b' then ['\\', 'v']
  else [c]

/-- Go `%q` on a string. -/
def goQuote (s : String) : String :=
  "\"" ++ String.mk (s.data.map goQuoteChar).flatten ++ "\""

/-- The parse loop of `versionStringsToSemvers`: parse every candidate in
order, failing at the first unparseable entry with its index and quoted
literal text; no partial result survives an error. -/
def parseVersionsLoop : Nat → List String → Except String (List SemVersion)
  | _, [] => .ok []
  | i, s :: rest =>
    match NewVersion s with
    | .error e =>
      .error ("parsing version: index " ++ toString i ++ ": " ++ goQuote s
        ++ ": " ++ e)
    | .ok v =>
      match parseVersionsLoop (i + 1) rest with
      | .error e => .error e
      | .ok vs => .ok (v :: vs)

/-- One step of Go's `insertionSort`: insert `x` on top of the already
processed prefix `p`, then bubble it down past every element `e` (scanning
from the top) with `less x e`, stopping at the first element for which
`less` fails. -/
def goInsertPos (less : α → α → Bool) (p : List α) (x : α) : List α :=
  let revp := p.reverse
  (revp.dropWhile (fun e => less x e)).reverse
    ++ x :: (revp.takeWhile (fun e => less x e)).reverse

/-- Go's `insertionSort` over a list, by the strict `less` test.  This is
exactly what `sort.Sort` executes for slices of fewer than 13 elements (for
7–12 elements Go first runs one gap-6 Shell pass, which only reshuffles the
intermediate state of the same final insertion pass); for larger slices
`sort.Sort` switches to quicksort, which produces the same postcondition —
a `Less`-sorted permutation — whenever `Less` is a strict weak order. -/
def insertionSortGo (less : α → α → Bool) (l : List α) : List α :=
  l.foldl (goInsertPos less) []

/-- `Tracker.versionStringsToSemvers`: parse all candidates (fail-fast),
then sort ascending by `Version.LessThan`
(`sort.Sort(semver.Collection(vss))`). -/
def versionStringsToSemvers (vs : List String) : Except String (List SemVersion) :=
  match parseVersionsLoop 0 vs with
  | .error e => .error e
  | .ok vss => .ok (insertionSortGo svLessThan vss)

/-- `Tracker.versionsToReleases`. -/
def versionsToReleases (vs : List String) : Except String (List Release) :=
  match versionStringsToSemvers vs with
  | .error e => .error e
  | .ok vss => .ok (vss.map semverToRelease)

/-- The outcome of one `cmdsite.CaptureStrings` call: captured stdout and
stderr, plus the non-`nil` error (non-zero exit status / spawn failure)
if any. -/
structure ExecResult where
  stdout : String
  stderr : String
  exitErr : Option String
deriving Repr, DecidableEq

/-- The diagnostic log lines `Tracker.exec` emits (`Logger.V(1).Info` on a
non-empty stderr).  Logging is not an error path. -/
def execLogs (r : ExecResult) : List String :=
  if r.stderr.length > 0 then [r.stderr] else []

/-- `Tracker.exec` after the capture returned: a non-`nil` error is
propagated; otherwise stdout is split on newlines and blank lines are
dropped. -/
def exec (r : ExecResult) : Except String (List String) :=
  match r.exitErr with
  | some e => .error e
  | none =>
    .ok (((splitOnCh '\n' r.stdout.data).map String.mk).filter (fun e => e ≠ ""))

/-- `Tracker.execAll`. -/
def execAll (r : ExecResult) : Except String (List Release) :=
  match exec r with
  | .error e => .error e
  | .ok vs => versionsToReleases vs

/-! ## Documents and version-string extraction -/

/-- A decoded document tree after `maputil.RecursivelyCastKeysToStrings`:
maps are string-keyed; scalars are strings, integers, booleans or null. -/
inductive Node where
  | str : String → Node
  | intVal : Int → Node
  | boolVal : Bool → Node
  | nullVal : Node
  | list : List Node → Node
  | map : List (String × Node) → Node

mutual
/-- Rough model of Go `fmt` `%v` rendering of a decoded document (used only
inside error messages; no claim inspects this text). -/
def renderNode : Node → String
  | .str s => s
  | .intVal i => toString i
  | .boolVal b => if b then "true" else "false"
  | .nullVal => "<nil>"
  | .list l => "[" ++ renderNodes l ++ "]"
  | .map m => "map[" ++ renderKVs m ++ "]"

def renderNodes : List Node → String
  | [] => ""
  | [n] => renderNode n
  | n :: rest => renderNode n ++ " " ++ renderNodes rest

def renderKVs : List (String × Node) → String
  | [] => ""
  | [(k, v)] => k ++ ":" ++ renderNode v
  | (k, v) :: rest => k ++ ":" ++ renderNode v ++ " " ++ renderKVs rest
end

/-- The per-node loop of `extractVersionStrings`: a map node contributes
every key, a string node contributes itself, any other node type aborts the
extraction.  (The Go switch has two map cases, `map[interface{}]interface{}`
and `map[string]interface{}`; after key normalisation both are string-keyed
maps, the single map case here.) -/
def extractLoop (acc : List String) : List Node → Except String (List String)
  | [] => .ok acc
  | n :: rest =>
    match n with
    | .map kvs => extractLoop (acc ++ kvs.map Prod.fst) rest
    | .str s => extractLoop (acc ++ [s]) rest
    | other =>
      .error ("jsonpath: unexpected type of result: " ++ renderNode other)

/-- `Tracker.extractVersionStrings` after the two collaborator calls
(`maputil.RecursivelyCastKeysToStrings`, `jsonpath.Get`) returned:
`v` is the normalised document and `got` the query result.  A sequence
result is taken as is, a single map result becomes a singleton sequence,
anything else is an error; an *empty* sequence is an error. -/
def extractVersionStrings (v : Node) (jpath : String) (got : Node) :
    Except String (List String) :=
  let raw : Except String (List Node) :=
    match got with
    | .list typed => .ok typed
    | .map _ => .ok [got]
    | typed =>
      .error ("unexpected type of result from jsonpath: \"" ++ jpath
        ++ "\": " ++ renderNode typed)
  match raw with
  | .error e => .error e
  | .ok raw =>
    if raw.length = 0 then
      .error ("jsonpath: \"" ++ jpath ++ "\": returned nothing: "
        ++ renderNode v)
    else extractLoop [] raw

/-- `Tracker.extractVersions`. -/
def extractVersions (v : Node) (jpath : String) (got : Node) :
    Except String (List Release) :=
  match extractVersionStrings v jpath got with
  | .error e => .error e
  | .ok vs => versionsToReleases vs

/-! ## Provider selection (`GetProvider`) and specs (`types.go`) -/

/-- `GetterJSONPath` of `types.go`. -/
structure GetterJSONPath where
  Source : String
  Versions : String
  Description : String
deriving Repr, DecidableEq

/-- `GitTags` of `types.go`. -/
structure GitTags where
  Source : String
deriving Repr, DecidableEq

/-- `GitHubReleases` of `types.go`. -/
structure GitHubReleases where
  Host : String
  Source : String
deriving Repr, DecidableEq

/-- `DockerImageTags` of `types.go`. -/
structure DockerImageTags where
  Source : String
deriving Repr, DecidableEq

/-- `VersionsFrom` of `types.go`. -/
structure VersionsFrom where
  JSONPath : GetterJSONPath
  GitTags : ReleaseTracker.GitTags
  GitHubReleases : ReleaseTracker.GitHubReleases
  DockerImageTags : ReleaseTracker.DockerImageTags
deriving Repr, DecidableEq

/-- `Spec` of `types.go`. -/
structure Spec where
  VersionsFrom : ReleaseTracker.VersionsFrom
deriving Repr, DecidableEq

/-- The three provider shapes `GetProvider` can return, carrying the data
their constructors bake in. -/
inductive ReleaseProvider where
  | execProvider (cmd : String)
  | getterJsonPathProvider (spec : GetterJSONPath)
  | httpJsonPathProvider (url : String) (jsonpath : String)
deriving Repr, DecidableEq

/-- `newDockerHubImageTagsProvider`: fixed registry URL and query path. -/
def newDockerHubImageTagsProvider (spec : DockerImageTags) : ReleaseProvider :=
  .httpJsonPathProvider
    ("https://registry.hub.docker.com/v2/repositories/" ++ spec.Source ++ "/tags/")
    "$.results[*].name"

/-- `newGitHubReleasesProvider`: host defaults to `api.github.com`. -/
def newGitHubReleasesProvider (spec : GitHubReleases) : ReleaseProvider :=
  let host := if spec.Host = "" then "api.github.com" else spec.Host
  .httpJsonPathProvider ("https://" ++ host ++ "/repos/" ++ spec.Source ++ "/releases")
    "$[*].tag_name"

/-- The shell command the git-tags provider runs (lists remote tags,
filters out annotated-tag peel lines, extracts the tag name). -/
def gitTagsCmd (source : String) : String :=
  "git ls-remote --tags git://" ++ source
  ++ ".git | grep -v \x7b | awk \x27\x7b print $2 \x7d\x27 | cut -d\x27/\x27 -f 3"

/-- `Tracker.GetProvider`: check `JSONPath`, then `DockerImageTags`, then
`GitTags`, then `GitHubReleases`, taking the first with a non-empty
`Source`; error if none is populated. -/
def GetProvider (spec : Spec) : Except String ReleaseProvider :=
  let versionsFrom := spec.VersionsFrom
  if versionsFrom.JSONPath.Source ≠ "" then
    .ok (.getterJsonPathProvider versionsFrom.JSONPath)
  else if versionsFrom.DockerImageTags.Source ≠ "" then
    .ok (newDockerHubImageTagsProvider versionsFrom.DockerImageTags)
  else if versionsFrom.GitTags.Source ≠ "" then
    .ok (.execProvider (gitTagsCmd versionsFrom.GitTags.Source))
  else if versionsFrom.GitHubReleases.Source ≠ "" then
    .ok (newGitHubReleasesProvider versionsFrom.GitHubReleases)
  else .error "no versions provider specified"

/-- The collaborator outcomes one resolution call can consume: the captured
shell execution (exec provider), any fetch/decode error (`dep.Resolve`,
`fs.ReadFile`, `vhttpget.DoRequest`, `yaml.Unmarshal`), the decoded and
key-normalised document, and the `jsonpath.Get` outcome on it.  Exactly one
provider consumes its slice of this record per call. -/
structure World where
  execResult : ExecResult
  fetchErr : Option String
  doc : Node
  queryResult : Except String Node

/-- `ReleaseProvider.All`: what each provider's `All()` computes once its
collaborator outcomes are fixed. -/
def providerAll (p : ReleaseProvider) (w : World) : Except String (List Release) :=
  match p with
  | .execProvider _ => execAll w.execResult
  | .getterJsonPathProvider spec =>
    match w.fetchErr with
    | some e => .error e
    | none =>
      match w.queryResult with
      | .error e => .error e
      | .ok got => extractVersions w.doc spec.Versions got
  | .httpJsonPathProvider _ jp =>
    match w.fetchErr with
    | some e => .error e
    | none =>
      match w.queryResult with
      | .error e => .error e
      | .ok got => extractVersions w.doc jp got

/-- `Tracker.GetReleases`. -/
def GetReleases (spec : Spec) (w : World) : Except String (List Release) :=
  match GetProvider spec with
  | .error e => .error e
  | .ok p => providerAll p w

/-! ## `Tracker.Latest` -/

/-- The selection loop of `Latest`: keep the running maximum (started at
the zero `semver.Version{}`) over the releases passing the constraint,
replacing it only on a strict `LessThan` increase. -/
def latestLoop (cons : List (List SvConstraint)) :
    List Release → SemVersion → Option Release → SemVersion × Option Release
  | [], latestVer, latest => (latestVer, latest)
  | r :: rest, latestVer, latest =>
    if !(checkConstraints cons r.Semver) then latestLoop cons rest latestVer latest
    else if svLessThan latestVer r.Semver then latestLoop cons rest r.Semver (some r)
    else latestLoop cons rest latestVer latest

/-- Go `strings.Join(·, " ")` as used by `%v` on a string slice. -/
def goJoinSp : List String → String
  | [] => ""
  | [s] => s
  | s :: rest => s ++ " " ++ goJoinSp rest

/-- `Tracker.Latest`, with the release list `GetReleases` produced passed
explicitly: default the constraint to `"> 0.0.0"`, compile it, scan all
releases, and either return the selected release or fail listing every
release's rendered version. -/
def Latest (all : List Release) (constraint : String) : Except String Release :=
  let constraint := if constraint = "" then "> 0.0.0" else constraint
  match svNewConstraint constraint with
  | .error e => .error e
  | .ok cons =>
    match (latestLoop cons all zeroVersion none).2 with
    | some latest => .ok latest
    | none =>
      let vers := all.map (fun r => svString r.Semver)
      .error ("no semver matching " ++ goQuote constraint ++ " found in ["
        ++ goJoinSp vers ++ "]")

/-! ## Verification apparatus (not part of the source translation)

The definitions below exist only to *state and prove* properties of the
embedding above: a decidable substring test for claims about error-message
contents, and a rank/key reading of the Masterminds comparison under which
its order-theoretic behaviour can be analysed. -/

/-- Decidable "needle occurs in haystack" on strings. -/
def strInfixB (needle hay : String) : Bool := decide (needle.data <:+: hay.data)

/-- A prerelease identifier is *canonical* if, in case `strconv.ParseInt`
accepts it, it is the plain decimal rendering of a non-negative value (no
sign, no leading zeros).  Every identifier that is valid under strict
semantic versioning is canonical; `01` or `-3` are not. -/
def goodPart (s : List Char) : Bool :=
  match goParseInt64 s with
  | some k => decide (0 ≤ k) && s = (Nat.repr k.toNat).data
  | none => true

/-- A prerelease string is canonical when it is empty or each of its
dot-separated identifiers is nonempty and canonical. -/
def goodPre (p : String) : Bool :=
  p = "" || (splitOnCh '.' p.data).all (fun q => !q.isEmpty && goodPart q)

/-- A version is canonical when its prerelease string is. -/
def goodVer (v : SemVersion) : Bool := goodPre v.pre

/-- A query-result node that is neither a plain string nor a map (the
`default` arm of the extraction switch). -/
def isBadNode : Node → Bool
  | .str _ => false
  | .map _ => false
  | _ => true

/-- Characters that `strconv.Quote` reproduces verbatim: printable ASCII
other than the quote and the backslash. -/
def goPlainChar (c : Char) : Bool :=
  32 ≤ c.toNat && c.toNat ≤ 126 && c ≠ '"' && c ≠ '\\'

end ReleaseTracker

namespace ReleaseTracker

/-! ## General helper lemmas -/

theorem strInfixB_append (pre mid suf : String) :
    strInfixB mid (pre ++ mid ++ suf) = true := by
  simp only [strInfixB, decide_eq_true_eq, String.data_append]
  exact ⟨pre.data, suf.data, by simp⟩

theorem goQuoteChar_plain (c : Char) (h : goPlainChar c = true) :
    goQuoteChar c = [c] := by
  simp only [goPlainChar, Bool.and_eq_true, decide_eq_true_eq] at h
  obtain ⟨⟨⟨h32, h126⟩, hq⟩, hb⟩ := h
  have h7 : c ≠ '\x07' := fun hc => by subst hc; exact absurd h32 (by decide)
  have h8 : c ≠ '\x08' := fun hc => by subst hc; exact absurd h32 (by decide)
  have hf : c ≠ '\x0c' := fun hc => by subst hc; exact absurd h32 (by decide)
  have hn : c ≠ '\n' := fun hc => by subst hc; exact absurd h32 (by decide)
  have hr : c ≠ '\r' := fun hc => by subst hc; exact absurd h32 (by decide)
  have ht : c ≠ '\t' := fun hc => by subst hc; exact absurd h32 (by decide)
  have hv : c ≠ '\x0b' := fun hc => by subst hc; exact absurd h32 (by decide)
  unfold goQuoteChar
  rw [if_neg hq, if_neg hb, if_neg h7, if_neg h8, if_neg hf, if_neg hn,
    if_neg hr, if_neg ht, if_neg hv]

theorem flatten_quote_plain (l : List Char) (h : l.all goPlainChar = true) :
    (l.map goQuoteChar).flatten = l := by
  induction l with
  | nil => rfl
  | cons c rest ih =>
    simp only [List.all_cons, Bool.and_eq_true] at h
    rw [List.map_cons, List.flatten_cons, goQuoteChar_plain c h.1, ih h.2]
    rfl

theorem goQuote_plain (s : String) (h : s.data.all goPlainChar = true) :
    goQuote s = "\"" ++ s ++ "\"" := by
  unfold goQuote
  rw [flatten_quote_plain s.data h]

/-- `versionsToReleases` never populates `Description`. -/
theorem versionsToReleases_description (vs : List String) (rs : List Release)
    (h : versionsToReleases vs = .ok rs) : ∀ r ∈ rs, r.Description = "" := by
  unfold versionsToReleases at h
  split at h
  · exact absurd h (by simp)
  · cases h
    intro r hr
    simp only [List.mem_map] at hr
    obtain ⟨v, _, rfl⟩ := hr
    rfl

end ReleaseTracker

namespace ReleaseTracker

/-! ## Extraction lemmas (C4, C5) -/

theorem extractLoop_append_strings (strs : List String) (acc : List String) :
    extractLoop acc (strs.map Node.str) = .ok (acc ++ strs) := by
  induction strs generalizing acc with
  | nil => simp [extractLoop]
  | cons s rest ih =>
    simp only [List.map_cons, extractLoop, ih]
    simp

theorem extractLoop_err (n : Node) (hbad : isBadNode n = true) :
    ∀ (nodes : List Node), n ∈ nodes → ∀ acc,
      ∃ msg, extractLoop acc nodes = .error msg := by
  intro nodes
  induction nodes with
  | nil => intro h; cases h
  | cons m rest ih =>
    intro hn acc
    cases m with
    | str s =>
      rcases List.mem_cons.mp hn with rfl | hmem
      · simp [isBadNode] at hbad
      · exact ih hmem (acc ++ [s])
    | map kvs =>
      rcases List.mem_cons.mp hn with rfl | hmem
      · simp [isBadNode] at hbad
      · exact ih hmem (acc ++ kvs.map Prod.fst)
    | intVal i => exact ⟨_, rfl⟩
    | boolVal b => exact ⟨_, rfl⟩
    | nullVal => exact ⟨_, rfl⟩
    | list l => exact ⟨_, rfl⟩

/-- **C4.**  A path query whose result sequence is empty is an error:
version extraction (and hence release extraction) never returns a list —
empty or otherwise — from a query result that matched zero nodes. -/
theorem empty_query_result_is_error (v : Node) (jpath : String) :
    (∃ msg, extractVersionStrings v jpath (Node.list []) = .error msg) ∧
    (∀ vs, extractVersionStrings v jpath (Node.list []) ≠ .ok vs) ∧
    (∀ rs, extractVersions v jpath (Node.list []) ≠ .ok rs) := by
  refine ⟨⟨_, rfl⟩, ?_, ?_⟩
  · intro vs h
    simp [extractVersionStrings] at h
  · intro rs h
    simp [extractVersions, extractVersionStrings] at h

/-- **C5.**  Extraction takes each plain-string node verbatim preserving
input order; takes every key of a map node (the returned strings are
exactly the key set); and fails on any node of another type. -/
theorem extract_node_shapes (v : Node) (jpath : String) :
    (∀ strs : List String, strs ≠ [] →
      extractVersionStrings v jpath (Node.list (strs.map Node.str)) = .ok strs) ∧
    (∀ kvs : List (String × Node),
      ∃ vs, extractVersionStrings v jpath (Node.map kvs) = .ok vs ∧
        vs = kvs.map Prod.fst ∧ (∀ s, s ∈ vs ↔ s ∈ kvs.map Prod.fst)) ∧
    (∀ nodes : List Node, (∃ n ∈ nodes, isBadNode n = true) →
      ∃ msg, extractVersionStrings v jpath (Node.list nodes) = .error msg) := by
  refine ⟨?_, ?_, ?_⟩
  · intro strs hne
    have hlen : (strs.map Node.str).length ≠ 0 := by
      simpa using fun h => hne (List.eq_nil_of_length_eq_zero h)
    simp only [extractVersionStrings, if_neg hlen]
    rw [extractLoop_append_strings strs []]
    simp
  · intro kvs
    refine ⟨kvs.map Prod.fst, ?_, rfl, fun s => Iff.rfl⟩
    simp [extractVersionStrings, extractLoop]
  · intro nodes ⟨n, hn, hbad⟩
    have hne : nodes ≠ [] := by rintro rfl; cases hn
    have hlen : nodes.length ≠ 0 := by
      simpa using fun h => hne (List.eq_nil_of_length_eq_zero h)
    obtain ⟨msg, hmsg⟩ := extractLoop_err n hbad nodes hn []
    exact ⟨msg, by simp only [extractVersionStrings, if_neg hlen]; exact hmsg⟩

/-- Witness for C5 at concrete inputs. -/
theorem extract_node_shapes_witness :
    extractVersionStrings Node.nullVal "$.v"
      (Node.list [Node.str "a", Node.str "b"]) = .ok ["a", "b"] ∧
    (∃ msg, extractVersionStrings Node.nullVal "$.v"
      (Node.list [Node.intVal 3]) = .error msg) :=
  ⟨(extract_node_shapes Node.nullVal "$.v").1 ["a", "b"] (by decide),
   (extract_node_shapes Node.nullVal "$.v").2.2 [Node.intVal 3]
     ⟨Node.intVal 3, by simp, rfl⟩⟩

end ReleaseTracker

namespace ReleaseTracker

/-- **C6.**  Provider selection checks the origin fields in the order
`jsonPath`, then `dockerImageTags`, then `gitTags`, then `githubReleases`,
returning the provider of the first field with a non-empty `Source`; when
none of the four is populated it fails with
`no versions provider specified`. -/
theorem provider_selection_order (spec : Spec) :
    (spec.VersionsFrom.JSONPath.Source ≠ "" →
      GetProvider spec = .ok (.getterJsonPathProvider spec.VersionsFrom.JSONPath)) ∧
    (spec.VersionsFrom.JSONPath.Source = "" →
      spec.VersionsFrom.DockerImageTags.Source ≠ "" →
      GetProvider spec =
        .ok (newDockerHubImageTagsProvider spec.VersionsFrom.DockerImageTags)) ∧
    (spec.VersionsFrom.JSONPath.Source = "" →
      spec.VersionsFrom.DockerImageTags.Source = "" →
      spec.VersionsFrom.GitTags.Source ≠ "" →
      GetProvider spec =
        .ok (.execProvider (gitTagsCmd spec.VersionsFrom.GitTags.Source))) ∧
    (spec.VersionsFrom.JSONPath.Source = "" →
      spec.VersionsFrom.DockerImageTags.Source = "" →
      spec.VersionsFrom.GitTags.Source = "" →
      spec.VersionsFrom.GitHubReleases.Source ≠ "" →
      GetProvider spec =
        .ok (newGitHubReleasesProvider spec.VersionsFrom.GitHubReleases)) ∧
    (spec.VersionsFrom.JSONPath.Source = "" →
      spec.VersionsFrom.DockerImageTags.Source = "" →
      spec.VersionsFrom.GitTags.Source = "" →
      spec.VersionsFrom.GitHubReleases.Source = "" →
      GetProvider spec = .error "no versions provider specified") := by
  refine ⟨?_, ?_, ?_, ?_, ?_⟩ <;> intros <;> simp_all [GetProvider]

/-- Witness for C6: unpopulated spec yields the selection error. -/
theorem provider_selection_order_witness :
    GetProvider ⟨⟨⟨"", "", ""⟩, ⟨""⟩, ⟨"", ""⟩, ⟨""⟩⟩⟩ =
      .error "no versions provider specified" :=
  (provider_selection_order _).2.2.2.2 rfl rfl rfl rfl

/-- **C7.**  The command-output provider: a non-zero exit status (non-`nil`
capture error) is an error; non-empty standard error is logged but is not
itself an error; standard output is split into lines with blank lines
discarded, each remaining line becoming one release; in particular output
`"1.0.0\n\n2.0.0\n"` yields exactly two releases. -/
theorem exec_provider_spec :
    (∀ r : ExecResult, ∀ e, r.exitErr = some e →
      exec r = .error e ∧ execAll r = .error e) ∧
    (∀ r : ExecResult, r.stderr ≠ "" →
      execLogs r = [r.stderr] ∧ (r.exitErr = none → (exec r).isOk = true)) ∧
    (∀ r : ExecResult, r.exitErr = none →
      exec r = .ok (((splitOnCh '\n' r.stdout.data).map String.mk).filter
        (fun e => e ≠ "")) ∧
      ∀ vs, exec r = .ok vs → ∀ s ∈ vs, s ≠ "") ∧
    (∃ rs, execAll { stdout := "1.0.0\n\n2.0.0\n", stderr := "", exitErr := none }
        = .ok rs ∧
      rs.length = 2 ∧ rs.map Release.Version = ["1.0.0", "2.0.0"]) := by
  refine ⟨?_, ?_, ?_, ?_⟩
  · intro r e h
    constructor <;> simp [exec, execAll, h]
  · intro r h
    constructor
    · have hlen : r.stderr.length > 0 := by
        cases hstr : r.stderr with
        | mk d =>
          cases d with
          | nil => rw [hstr] at h; exact absurd rfl h
          | cons c cs => simp [String.length]
      simp [execLogs, hlen]
    · intro hnone
      simp [exec, hnone, Except.isOk, Except.toBool]
  · intro r h
    refine ⟨by simp [exec, h], ?_⟩
    intro vs hvs s hs
    simp only [exec, h] at hvs
    cases hvs
    exact of_decide_eq_true (List.mem_filter.mp hs).2
  · exact ⟨_, rfl, rfl, rfl⟩

end ReleaseTracker

namespace ReleaseTracker

/-- Witness for C7 at a concrete capture outcome. -/
theorem exec_provider_spec_witness :
    exec { stdout := "", stderr := "boom", exitErr := some "exit status 1" }
      = .error "exit status 1" ∧
    execLogs { stdout := "", stderr := "boom", exitErr := some "exit status 1" }
      = ["boom"] :=
  ⟨(exec_provider_spec.1 _ "exit status 1" rfl).1,
   (exec_provider_spec.2.1 _ (by decide)).1⟩

/-- `NewVersion` stores its argument verbatim in the `original` field. -/
theorem NewVersion_original (raw : String) (sv : SemVersion)
    (h : NewVersion raw = .ok sv) : sv.original = raw := by
  unfold NewVersion at h
  repeat' split at h
  all_goals try simp at h
  all_goals repeat' split at h
  all_goals try simp at h
  all_goals (subst h; rfl)

end ReleaseTracker

namespace ReleaseTracker

/-- **C8 counterexample.**  A release built from the origin-tagged string
`"v1.2.3"` carries `Version = "1.2.3"`: `semverToRelease` stores the
canonical rendering `Semver.String()`, not the raw string produced by the
source provider. -/
theorem release_raw_string_counterexample :
    ∃ sv, NewVersion "v1.2.3" = .ok sv ∧
      (semverToRelease sv).Version = "1.2.3" ∧
      (semverToRelease sv).Version ≠ "v1.2.3" ∧ sv.original = "v1.2.3" :=
  ⟨_, rfl, by decide, by decide, by decide⟩

/-- **C8 (amended).**  Every release constructed during resolution carries,
alongside its parsed semantic version (whose internal `original` field does
hold the raw input), the *canonical rendering* `Semver.String()` of that
version in its `Version` field — not necessarily the raw string (a leading
`v` is stripped by the rendering). -/
theorem release_version_is_normalized (raw : String) (sv : SemVersion)
    (h : NewVersion raw = .ok sv) :
    sv.original = raw ∧ (semverToRelease sv).Semver = sv ∧
      (semverToRelease sv).Version = svString sv ∧
      (∀ vs rs, versionsToReleases vs = .ok rs →
        ∀ r ∈ rs, r.Version = svString r.Semver) :=
  ⟨NewVersion_original raw sv h, rfl, rfl, by
    intro vs rs hrs r hr
    unfold versionsToReleases at hrs
    split at hrs
    · exact absurd hrs (by simp)
    · cases hrs
      simp only [List.mem_map] at hr
      obtain ⟨v, _, rfl⟩ := hr
      rfl⟩

/-- Witness for C8 (amended) at `"v1.2.3"`. -/
theorem release_version_is_normalized_witness :
    ∃ sv, NewVersion "v1.2.3" = .ok sv ∧ sv.original = "v1.2.3" :=
  ⟨_, rfl, (release_version_is_normalized "v1.2.3" _ rfl).1⟩

/-- **C9 counterexample.**  A `jsonPath` spec declaring
`description: "latest helm releases"` produces releases whose `Description`
field is `""`, not the declared description: `semverToRelease` never copies
it. -/
theorem release_description_counterexample :
    ∃ rs, providerAll
        (.getterJsonPathProvider
          { Source := "s3://bucket/versions.yaml", Versions := "$.versions",
            Description := "latest helm releases" })
        { execResult := { stdout := "", stderr := "", exitErr := none },
          fetchErr := none,
          doc := Node.list [Node.str "1.0.0"],
          queryResult := .ok (Node.list [Node.str "1.0.0"]) } = .ok rs ∧
      rs ≠ [] ∧ (∀ r ∈ rs, r.Description = "") ∧
      (∀ r ∈ rs, r.Description ≠ "latest helm releases") ∧
      ("latest helm releases" : String) ≠ "" :=
  ⟨_, rfl, by decide, by decide, by decide, by decide⟩

/-- **C9 (amended).**  `listReleases` (the provider `All()` implementations,
all of which construct releases through `versionsToReleases`) always returns
releases whose `Description` field is the empty string; the provider-declared
description in the spec is never attached. -/
theorem release_description_always_empty (p : ReleaseProvider) (w : World)
    (rs : List Release) (h : providerAll p w = .ok rs) :
    ∀ r ∈ rs, r.Description = "" := by
  cases p with
  | execProvider cmd =>
    simp only [providerAll, execAll] at h
    split at h
    · exact absurd h (by simp)
    · exact versionsToReleases_description _ _ h
  | getterJsonPathProvider spec =>
    simp only [providerAll] at h
    split at h
    · exact absurd h (by simp)
    · split at h
      · exact absurd h (by simp)
      · simp only [extractVersions] at h
        split at h
        · exact absurd h (by simp)
        · exact versionsToReleases_description _ _ h
  | httpJsonPathProvider url jp =>
    simp only [providerAll] at h
    split at h
    · exact absurd h (by simp)
    · split at h
      · exact absurd h (by simp)
      · simp only [extractVersions] at h
        split at h
        · exact absurd h (by simp)
        · exact versionsToReleases_description _ _ h

/-- Witness for C9 (amended) at a concrete provider call. -/
theorem release_description_always_empty_witness :
    ∃ rs, providerAll (.execProvider "list-versions")
        { execResult := { stdout := "1.0.0\n", stderr := "", exitErr := none },
          fetchErr := none, doc := Node.nullVal,
          queryResult := .ok Node.nullVal } = .ok rs ∧
      ∀ r ∈ rs, r.Description = "" := by
  obtain ⟨rs, hrs⟩ : ∃ rs, providerAll (.execProvider "list-versions")
      { execResult := { stdout := "1.0.0\n", stderr := "", exitErr := none },
        fetchErr := none, doc := Node.nullVal,
        queryResult := .ok Node.nullVal } = .ok rs := ⟨_, rfl⟩
  exact ⟨rs, hrs, release_description_always_empty _ _ rs hrs⟩

end ReleaseTracker

namespace ReleaseTracker

theorem strInfixB_of_eq (mid hay pre suf : String) (hh : hay = pre ++ mid ++ suf) :
    strInfixB mid hay = true := hh ▸ strInfixB_append pre mid suf

/-- The parse loop of `versionStringsToSemvers` fails at the first
unparseable entry, reporting its (offset) index and its quoted literal. -/
theorem parseVersionsLoop_fail (vs : List String) :
    ∀ k, (∃ i, ∃ hi : i < vs.length, (NewVersion (vs.get ⟨i, hi⟩)).isOk = false) →
      ∃ j, ∃ hj : j < vs.length, ∃ e,
        NewVersion (vs.get ⟨j, hj⟩) = .error e ∧
        parseVersionsLoop k vs = .error
          ("parsing version: index " ++ toString (k + j) ++ ": "
            ++ goQuote (vs.get ⟨j, hj⟩) ++ ": " ++ e) := by
  induction vs with
  | nil => rintro k ⟨i, hi, _⟩; exact absurd hi (by simp)
  | cons s rest ih =>
    rintro k ⟨i, hi, hbad⟩
    cases hs : NewVersion s with
    | error e =>
      refine ⟨0, by simp, e, hs, ?_⟩
      simp [parseVersionsLoop, hs]
    | ok v =>
      have hrest : ∃ i', ∃ hi' : i' < rest.length,
          (NewVersion (rest.get ⟨i', hi'⟩)).isOk = false := by
        cases i with
        | zero =>
          rw [show (s :: rest).get ⟨0, hi⟩ = s from rfl, hs] at hbad
          simp [Except.isOk, Except.toBool] at hbad
        | succ i' =>
          exact ⟨i', by simpa using hi, hbad⟩
      obtain ⟨j, hj, e, he, hloop⟩ := ih (k + 1) hrest
      refine ⟨j + 1, by simpa using hj, e, he, ?_⟩
      have harith : k + 1 + j = k + (j + 1) := by omega
      simp only [parseVersionsLoop, hs, hloop, harith]
      rfl

/-- **C2.**  If any entry of the candidate list fails semantic-version
parsing, the whole extraction fails (no list — partial or otherwise — is
returned) with an error that carries the index of a failing entry and, for
entries of plain printable characters, the literal entry text itself. -/
theorem parse_failure_atomic (vs : List String) (i : Nat) (hi : i < vs.length)
    (hbad : (NewVersion (vs.get ⟨i, hi⟩)).isOk = false) :
    ∃ msg, versionStringsToSemvers vs = .error msg ∧
      (∀ l, versionStringsToSemvers vs ≠ .ok l) ∧
      ∃ j, ∃ hj : j < vs.length, ∃ e,
        NewVersion (vs.get ⟨j, hj⟩) = .error e ∧
        strInfixB (toString j) msg = true ∧
        ((vs.get ⟨j, hj⟩).data.all goPlainChar = true →
          strInfixB (vs.get ⟨j, hj⟩) msg = true) := by
  obtain ⟨j, hj, e, he, hloop⟩ := parseVersionsLoop_fail vs 0 ⟨i, hi, hbad⟩
  rw [Nat.zero_add] at hloop
  have hv : versionStringsToSemvers vs = .error
      ("parsing version: index " ++ toString j ++ ": "
        ++ goQuote (vs.get ⟨j, hj⟩) ++ ": " ++ e) := by
    simp [versionStringsToSemvers, hloop]
  refine ⟨_, hv, ?_, j, hj, e, he, ?_, ?_⟩
  · intro l hl
    rw [hv] at hl
    simp at hl
  · refine strInfixB_of_eq _ _ "parsing version: index "
      (": " ++ goQuote (vs.get ⟨j, hj⟩) ++ ": " ++ e) ?_
    simp only [String.append_assoc]
  · intro hplain
    refine strInfixB_of_eq _ _ ("parsing version: index " ++ toString j ++ ": " ++ "\"")
      ("\"" ++ (": " ++ e)) ?_
    rw [goQuote_plain _ hplain]
    simp only [String.append_assoc]

/-- Witness for C2 on `["1.0.0", "banana"]`. -/
theorem parse_failure_atomic_witness :
    ∃ msg, versionStringsToSemvers ["1.0.0", "banana"] = .error msg ∧
      (∀ l, versionStringsToSemvers ["1.0.0", "banana"] ≠ .ok l) := by
  obtain ⟨msg, h1, h2, _⟩ :=
    parse_failure_atomic ["1.0.0", "banana"] 1 (by decide) (by decide)
  exact ⟨msg, h1, h2⟩

end ReleaseTracker

namespace ReleaseTracker

/-- The selection loop leaves its state untouched when no release passes
the constraint. -/
theorem latestLoop_nochange (cons : List (List SvConstraint))
    (rest : List Release) (lv : SemVersion) (lat : Option Release)
    (h : ∀ r ∈ rest, checkConstraints cons r.Semver = false) :
    latestLoop cons rest lv lat = (lv, lat) := by
  induction rest with
  | nil => rfl
  | cons r rs ih =>
    have hr := h r (by simp)
    simp only [latestLoop, hr, Bool.not_false, if_pos]
    exact ih (fun x hx => h x (by simp [hx]))

/-- Every member of a list occurs inside its space-join. -/
theorem goJoinSp_mem (s : String) (l : List String) (hs : s ∈ l) :
    ∃ pre suf, goJoinSp l = pre ++ s ++ suf := by
  induction l with
  | nil => cases hs
  | cons x rest ih =>
    rcases List.mem_cons.mp hs with rfl | hmem
    · cases rest with
      | nil => exact ⟨"", "", by simp [goJoinSp]⟩
      | cons y ys =>
        exact ⟨"", " " ++ goJoinSp (y :: ys), by
          simp only [goJoinSp, String.append_assoc]
          simp⟩
    · obtain ⟨pre, suf, hps⟩ := ih hmem
      cases rest with
      | nil => cases hmem
      | cons y ys =>
        refine ⟨x ++ " " ++ pre, suf, ?_⟩
        show x ++ " " ++ goJoinSp (y :: ys) = x ++ " " ++ pre ++ s ++ suf
        rw [hps]
        simp only [String.append_assoc]

/-- **C3 (amended).**  If no release satisfies the compiled constraint,
`Latest` fails with an error whose message enumerates, for *every* release
(unfiltered), the canonical rendering `Semver.String()` of its version —
which equals the discovered raw string whenever that string was already in
canonical form (as in the claim's example `"1.0.0"`), but not in general
(a leading `v` is stripped). -/
theorem latest_no_match_error_message (all : List Release) (c : String)
    (cons : List (List SvConstraint))
    (hc : svNewConstraint (if c = "" then "> 0.0.0" else c) = .ok cons)
    (hnone : ∀ r ∈ all, checkConstraints cons r.Semver = false) :
    ∃ msg, Latest all c = .error msg ∧
      ∀ r ∈ all, strInfixB (svString r.Semver) msg = true := by
  unfold Latest
  dsimp only
  rw [hc]
  dsimp only
  rw [latestLoop_nochange cons all zeroVersion none hnone]
  refine ⟨_, rfl, ?_⟩
  intro r hr
  have hmem : svString r.Semver ∈ all.map (fun r => svString r.Semver) :=
    List.mem_map.mpr ⟨r, hr, rfl⟩
  obtain ⟨pre, suf, hps⟩ := goJoinSp_mem _ _ hmem
  refine strInfixB_of_eq _ _
    ("no semver matching " ++ goQuote (if c = "" then "> 0.0.0" else c)
      ++ " found in [" ++ pre) (suf ++ "]") ?_
  rw [hps]
  simp only [String.append_assoc]

/-- **C3 counterexample.**  With the discovered (raw) version string
`"v2.0.0"` and constraint `"> 3.0.0"`, `Latest` fails with a message that
contains the normalized `"2.0.0"` but *not* the discovered string
`"v2.0.0"`: the message does not enumerate the discovered strings
themselves. -/
theorem latest_no_match_raw_counterexample :
    ∃ rs msg,
      versionsToReleases ["v2.0.0"] = .ok rs ∧
      Latest rs "> 3.0.0" = .error msg ∧
      strInfixB "2.0.0" msg = true ∧
      strInfixB "v2.0.0" msg = false := by
  refine ⟨_, _, rfl, rfl, by decide, by decide⟩

/-- Witness for C3 (amended) at the claim's example: releases `["1.0.0"]`,
constraint `"> 1.0.0"`. -/
theorem latest_no_match_error_message_witness :
    ∃ msg,
      Latest [⟨⟨1, 0, 0, "", "", "1.0.0"⟩, "1.0.0", ""⟩] "> 1.0.0" = .error msg ∧
      strInfixB "1.0.0" msg = true := by
  obtain ⟨msg, h1, h2⟩ := latest_no_match_error_message
    [⟨⟨1, 0, 0, "", "", "1.0.0"⟩, "1.0.0", ""⟩] "> 1.0.0"
    [[⟨">", ⟨1, 0, 0, "", "", "1.0.0"⟩, "1.0.0", false, false, false⟩]]
    (by decide) (by decide)
  refine ⟨msg, h1, ?_⟩
  have := h2 ⟨⟨1, 0, 0, "", "", "1.0.0"⟩, "1.0.0", ""⟩ (by simp)
  have hsv : svString (⟨1, 0, 0, "", "", "1.0.0"⟩ : SemVersion) = "1.0.0" := by decide
  rwa [hsv] at this

end ReleaseTracker

namespace ReleaseTracker

/-! ## Order-theoretic analysis of the Masterminds comparison

`comparePrePart` realises a *rank* view: identifiers `strconv.ParseInt`
accepts compare by value, others compare as byte strings, numbers below
non-numbers.  Strictly-greater (`= 1`) is transitive; the tie result `-1`
for *distinct* identifiers of equal numeric value (possible only for
non-canonical identifiers such as `01`) makes `≤ 0` non-transitive in
general, which is why several claims below need the canonicity hypothesis
`goodVer`. -/

theorem listCharGt_irrefl : ∀ a : List Char, listCharGt a a = false
  | [] => rfl
  | c :: rest => by
    simp only [listCharGt, lt_irrefl, if_false]
    exact listCharGt_irrefl rest

theorem listCharGt_asymm (a : List Char) :
    ∀ b, listCharGt a b = true → listCharGt b a = false := by
  induction a with
  | nil => intro b h; simp [listCharGt] at h
  | cons c as ih =>
    intro b h
    cases b with
    | nil => rfl
    | cons d bs =>
      simp only [listCharGt] at h ⊢
      by_cases h1 : d.toNat < c.toNat
      · rw [if_neg (show ¬c.toNat < d.toNat by omega), if_pos h1]
      · by_cases h2 : c.toNat < d.toNat
        · rw [if_neg h1, if_pos h2] at h
          exact absurd h (by simp)
        · rw [if_neg h1, if_neg h2] at h
          rw [if_neg h2, if_neg h1]
          exact ih bs h

theorem listCharGt_trans (a : List Char) :
    ∀ b c, listCharGt a b = true → listCharGt b c = true →
      listCharGt a c = true := by
  induction a with
  | nil => intro b c h1 _; simp [listCharGt] at h1
  | cons x as ih =>
    intro b c h1 h2
    cases b with
    | nil => simp [listCharGt] at h2
    | cons y bs =>
      cases c with
      | nil => rfl
      | cons z cs =>
        simp only [listCharGt] at h1 h2 ⊢
        by_cases hyx : y.toNat < x.toNat
        · by_cases hzy : z.toNat < y.toNat
          · rw [if_pos (show z.toNat < x.toNat by omega)]
          · by_cases hyz : y.toNat < z.toNat
            · rw [if_neg hzy, if_pos hyz] at h2
              exact absurd h2 (by simp)
            · rw [if_pos (show z.toNat < x.toNat by omega)]
        · by_cases hxy : x.toNat < y.toNat
          · rw [if_neg hyx, if_pos hxy] at h1
            exact absurd h1 (by simp)
          · by_cases hzy : z.toNat < y.toNat
            · rw [if_pos (show z.toNat < x.toNat by omega)]
            · by_cases hyz : y.toNat < z.toNat
              · rw [if_neg hzy, if_pos hyz] at h2
                exact absurd h2 (by simp)
              · rw [if_neg hyx, if_neg hxy] at h1
                rw [if_neg hzy, if_neg hyz] at h2
                rw [if_neg (show ¬z.toNat < x.toNat by omega),
                  if_neg (show ¬x.toNat < z.toNat by omega)]
                exact ih bs cs h1 h2

theorem listCharGt_connex (a : List Char) :
    ∀ b, listCharGt a b = false → listCharGt b a = false → a = b := by
  induction a with
  | nil =>
    intro b h1 h2
    cases b with
    | nil => rfl
    | cons y bs => simp [listCharGt] at h2
  | cons x as ih =>
    intro b h1 h2
    cases b with
    | nil => simp [listCharGt] at h1
    | cons y bs =>
      simp only [listCharGt] at h1 h2
      by_cases hyx : y.toNat < x.toNat
      · rw [if_pos hyx] at h1; exact absurd h1 (by simp)
      · by_cases hxy : x.toNat < y.toNat
        · rw [if_pos hxy] at h2; exact absurd h2 (by simp)
        · rw [if_neg hyx, if_neg hxy] at h1
          rw [if_neg hxy, if_neg hyx] at h2
          have hchar : x = y := Char.ext (UInt32.ext (by
            have : x.toNat = y.toNat := by omega
            simpa [Char.toNat] using this))
          rw [hchar, ih bs h1 h2]

end ReleaseTracker

namespace ReleaseTracker

theorem comparePrePart_self (s : List Char) : comparePrePart s s = 0 := by
  simp [comparePrePart]

theorem comparePrePart_nil_left (o : List Char) (ho : o ≠ []) :
    comparePrePart [] o = -1 := by
  unfold comparePrePart
  rw [if_neg (fun h => ho h.symm), if_pos rfl, if_pos ho]

theorem comparePrePart_nil_right (s : List Char) (hs : s ≠ []) :
    comparePrePart s [] = 1 := by
  unfold comparePrePart
  rw [if_neg hs, if_neg hs, if_pos rfl, if_pos hs]

theorem comparePrePart_eq (s o : List Char) (hso : s ≠ o) (hs : s ≠ [])
    (ho : o ≠ []) :
    comparePrePart s o = match goParseInt64 o, goParseInt64 s with
      | none, none => if listCharGt s o then 1 else -1
      | none, some _ => -1
      | some _, none => 1
      | some oi, some si => if si > oi then 1 else -1 := by
  unfold comparePrePart
  rw [if_neg hso, if_neg hs, if_neg ho]

theorem comparePrePart_eq_nn (s o : List Char) (hso : s ≠ o) (hs : s ≠ [])
    (ho : o ≠ []) (hpo : goParseInt64 o = none) (hps : goParseInt64 s = none) :
    comparePrePart s o = if listCharGt s o then 1 else -1 := by
  rw [comparePrePart_eq s o hso hs ho, hpo, hps]

theorem comparePrePart_eq_ns (s o : List Char) (hso : s ≠ o) (hs : s ≠ [])
    (ho : o ≠ []) (hpo : goParseInt64 o = none) (ks : Int)
    (hps : goParseInt64 s = some ks) : comparePrePart s o = -1 := by
  rw [comparePrePart_eq s o hso hs ho, hpo, hps]

theorem comparePrePart_eq_sn (s o : List Char) (hso : s ≠ o) (hs : s ≠ [])
    (ho : o ≠ []) (ko : Int) (hpo : goParseInt64 o = some ko)
    (hps : goParseInt64 s = none) : comparePrePart s o = 1 := by
  rw [comparePrePart_eq s o hso hs ho, hpo, hps]

theorem comparePrePart_eq_ss (s o : List Char) (hso : s ≠ o) (hs : s ≠ [])
    (ho : o ≠ []) (ko ks : Int) (hpo : goParseInt64 o = some ko)
    (hps : goParseInt64 s = some ks) :
    comparePrePart s o = if ks > ko then 1 else -1 := by
  rw [comparePrePart_eq s o hso hs ho, hpo, hps]

theorem comparePrePart_eq_zero_iff (s o : List Char) :
    comparePrePart s o = 0 ↔ s = o := by
  constructor
  · intro h
    by_contra hne
    by_cases hs : s = []
    · subst hs
      rw [comparePrePart_nil_left o (fun e => hne e.symm)] at h
      exact absurd h (by decide)
    · by_cases ho : o = []
      · subst ho
        rw [comparePrePart_nil_right s hs] at h
        exact absurd h (by decide)
      · rcases hpo : goParseInt64 o with _ | ko <;>
          rcases hps : goParseInt64 s with _ | ks
        · rw [comparePrePart_eq_nn s o hne hs ho hpo hps] at h
          split at h <;> simp at h
        · rw [comparePrePart_eq_ns s o hne hs ho hpo ks hps] at h
          simp at h
        · rw [comparePrePart_eq_sn s o hne hs ho ko hpo hps] at h
          simp at h
        · rw [comparePrePart_eq_ss s o hne hs ho ko ks hpo hps] at h
          split at h <;> simp at h
  · rintro rfl
    exact comparePrePart_self s

theorem comparePrePart_one_flip (s o : List Char)
    (h : comparePrePart s o = 1) : comparePrePart o s = -1 := by
  by_cases hso : s = o
  · subst hso; rw [comparePrePart_self] at h; exact absurd h (by decide)
  · have hos : o ≠ s := fun e => hso e.symm
    by_cases hs : s = []
    · subst hs
      rw [comparePrePart_nil_left o (fun e => hso e.symm)] at h
      exact absurd h (by decide)
    · by_cases ho : o = []
      · subst ho
        exact comparePrePart_nil_left s hs
      · rcases hpo : goParseInt64 o with _ | ko <;>
          rcases hps : goParseInt64 s with _ | ks
        · rw [comparePrePart_eq_nn s o hso hs ho hpo hps] at h
          rw [comparePrePart_eq_nn o s hos ho hs hps hpo]
          split at h
          next hgt => rw [if_neg (by simp [listCharGt_asymm s o hgt])]
          next _ => exact absurd h (by decide)
        · rw [comparePrePart_eq_ns s o hso hs ho hpo ks hps] at h
          exact absurd h (by decide)
        · exact comparePrePart_eq_ns o s hos ho hs hps ko hpo
        · rw [comparePrePart_eq_ss s o hso hs ho ko ks hpo hps] at h
          rw [comparePrePart_eq_ss o s hos ho hs ks ko hps hpo]
          split at h
          next hgt => rw [if_neg (by omega)]
          next _ => exact absurd h (by decide)

theorem comparePrePart_one_trans (a b c : List Char)
    (h1 : comparePrePart a b = 1) (h2 : comparePrePart b c = 1) :
    comparePrePart a c = 1 := by
  by_cases hab : a = b
  · subst hab; exact h2
  by_cases hbc : b = c
  · subst hbc; exact h1
  by_cases hb : b = []
  · subst hb
    rw [comparePrePart_nil_left c (fun e => hbc e.symm)] at h2
    exact absurd h2 (by decide)
  by_cases ha : a = []
  · subst ha
    rw [comparePrePart_nil_left b hb] at h1
    exact absurd h1 (by decide)
  by_cases hc : c = []
  · subst hc
    exact comparePrePart_nil_right a ha
  by_cases hac : a = c
  · subst hac
    have := comparePrePart_one_flip a b h1
    rw [h2] at this
    exact absurd this (by decide)
  rcases hpa : goParseInt64 a with _ | ka <;>
    rcases hpb : goParseInt64 b with _ | kb <;>
    rcases hpc : goParseInt64 c with _ | kc
  · rw [comparePrePart_eq_nn a b hab ha hb hpb hpa] at h1
    rw [comparePrePart_eq_nn b c hbc hb hc hpc hpb] at h2
    rw [comparePrePart_eq_nn a c hac ha hc hpc hpa]
    split at h1
    next hg1 =>
      split at h2
      next hg2 => rw [if_pos (listCharGt_trans a b c hg1 hg2)]
      next _ => exact absurd h2 (by decide)
    next _ => exact absurd h1 (by decide)
  · exact comparePrePart_eq_sn a c hac ha hc kc hpc hpa
  · rw [comparePrePart_eq_ns b c hbc hb hc hpc kb hpb] at h2
    exact absurd h2 (by decide)
  · exact comparePrePart_eq_sn a c hac ha hc kc hpc hpa
  · rw [comparePrePart_eq_ns a b hab ha hb hpb ka hpa] at h1
    exact absurd h1 (by decide)
  · rw [comparePrePart_eq_ns a b hab ha hb hpb ka hpa] at h1
    exact absurd h1 (by decide)
  · rw [comparePrePart_eq_ns b c hbc hb hc hpc kb hpb] at h2
    exact absurd h2 (by decide)
  · rw [comparePrePart_eq_ss a b hab ha hb kb ka hpb hpa] at h1
    rw [comparePrePart_eq_ss b c hbc hb hc kc kb hpc hpb] at h2
    rw [comparePrePart_eq_ss a c hac ha hc kc ka hpc hpa]
    split at h1
    next hg1 =>
      split at h2
      next hg2 => rw [if_pos (by omega)]
      next _ => exact absurd h2 (by decide)
    next _ => exact absurd h1 (by decide)

end ReleaseTracker

namespace ReleaseTracker

theorem comparePreList_nil_nil : comparePreList [] [] = 0 := rfl

theorem comparePreList_nil_cons (o : List Char) (os : List (List Char)) :
    comparePreList [] (o :: os) =
      if comparePrePart [] o ≠ 0 then comparePrePart [] o
      else comparePreList [] os := rfl

theorem comparePreList_nilR_eq : ∀ ss, comparePreList ss [] = comparePreListNilR ss
  | [] => rfl
  | _ :: _ => rfl

theorem comparePreList_cons_nil (s : List Char) (ss : List (List Char)) :
    comparePreList (s :: ss) [] =
      if comparePrePart s [] ≠ 0 then comparePrePart s []
      else comparePreList ss [] := by
  rw [comparePreList_nilR_eq ss]
  rfl

theorem comparePreList_cons_cons (s o : List Char) (ss os : List (List Char)) :
    comparePreList (s :: ss) (o :: os) =
      if comparePrePart s o ≠ 0 then comparePrePart s o
      else comparePreList ss os := rfl

theorem comparePrePart_mem (s o : List Char) :
    comparePrePart s o = -1 ∨ comparePrePart s o = 0 ∨ comparePrePart s o = 1 := by
  unfold comparePrePart
  repeat' split
  all_goals simp

theorem comparePrePart_neg_flip_good (s o : List Char) (hgs : goodPart s = true)
    (hgo : goodPart o = true) (hs : s ≠ []) (ho : o ≠ [])
    (h : comparePrePart s o = -1) : comparePrePart o s = 1 := by
  by_cases hso : s = o
  · subst hso; rw [comparePrePart_self] at h; exact absurd h (by decide)
  have hos : o ≠ s := fun e => hso e.symm
  rcases hpo : goParseInt64 o with _ | ko <;> rcases hps : goParseInt64 s with _ | ks
  · rw [comparePrePart_eq_nn s o hso hs ho hpo hps] at h
    rw [comparePrePart_eq_nn o s hos ho hs hps hpo]
    split at h
    next hgt => exact absurd h (by decide)
    next hgt =>
      have hfalse : listCharGt s o = false := by
        revert hgt; cases listCharGt s o <;> simp
      cases hgt2 : listCharGt o s with
      | false => exact absurd (listCharGt_connex s o hfalse hgt2) hso
      | true => simp
  · exact comparePrePart_eq_sn o s hos ho hs ks hps hpo
  · rw [comparePrePart_eq_sn s o hso hs ho ko hpo hps] at h
    exact absurd h (by decide)
  · rw [comparePrePart_eq_ss s o hso hs ho ko ks hpo hps] at h
    rw [comparePrePart_eq_ss o s hos ho hs ks ko hps hpo]
    have hksko : ks ≠ ko := by
      intro he
      apply hso
      unfold goodPart at hgs hgo
      rw [hps] at hgs
      rw [hpo] at hgo
      simp only [Bool.and_eq_true, decide_eq_true_eq] at hgs hgo
      rw [hgs.2, hgo.2, he]
    split at h
    next => exact absurd h (by decide)
    next hgt => rw [if_pos (by omega)]

theorem comparePreList_self : ∀ l, comparePreList l l = 0
  | [] => rfl
  | x :: xs => by
    rw [comparePreList_cons_cons]
    simp [comparePrePart_self, comparePreList_self xs]

theorem comparePreList_mem : ∀ a b,
    comparePreList a b = -1 ∨ comparePreList a b = 0 ∨ comparePreList a b = 1
  | [], [] => by simp [comparePreList_nil_nil]
  | [], o :: os => by
    rw [comparePreList_nil_cons]
    split
    · exact comparePrePart_mem [] o
    · exact comparePreList_mem [] os
  | s :: ss, [] => by
    rw [comparePreList_cons_nil]
    split
    · exact comparePrePart_mem s []
    · exact comparePreList_mem ss []
  | s :: ss, o :: os => by
    rw [comparePreList_cons_cons]
    split
    · exact comparePrePart_mem s o
    · exact comparePreList_mem ss os
termination_by a b => a.length + b.length

theorem comparePreList_nil_left_ne_one : ∀ l, comparePreList [] l ≠ 1
  | [] => by decide
  | o :: os => by
    rw [comparePreList_nil_cons]
    split
    next hz =>
      by_cases ho : o = []
      · subst ho; rw [comparePrePart_self] at hz; exact absurd rfl hz
      · rw [comparePrePart_nil_left o ho]; decide
    next hz => exact comparePreList_nil_left_ne_one os

theorem comparePreList_one_flip : ∀ (a b : List (List Char)),
    comparePreList a b = 1 → comparePreList b a = -1
  | [], b => fun h => absurd h (comparePreList_nil_left_ne_one b)
  | a0 :: as, [] => by
    intro h
    rw [comparePreList_cons_nil] at h
    rw [comparePreList_nil_cons]
    by_cases hz : comparePrePart a0 [] = 0
    · have ha0 : a0 = [] := (comparePrePart_eq_zero_iff a0 []).mp hz
      rw [if_neg (fun hC => hC hz)] at h
      subst ha0
      rw [if_neg (fun hC => hC (comparePrePart_self []))]
      exact comparePreList_one_flip as [] h
    · have ha0 : a0 ≠ [] := fun e => hz (by rw [e]; exact comparePrePart_self [])
      rw [comparePrePart_nil_left a0 ha0]
      rw [if_pos (by decide)]
  | a0 :: as, b0 :: bs => by
    intro h
    rw [comparePreList_cons_cons] at h
    rw [comparePreList_cons_cons]
    by_cases hz : comparePrePart a0 b0 = 0
    · have hab : a0 = b0 := (comparePrePart_eq_zero_iff a0 b0).mp hz
      rw [if_neg (fun hC => hC hz)] at h
      subst hab
      rw [if_neg (fun hC => hC (comparePrePart_self a0))]
      exact comparePreList_one_flip as bs h
    · rw [if_pos hz] at h
      rw [comparePrePart_one_flip a0 b0 h]
      rw [if_pos (by decide)]

theorem comparePreList_neg_flip_good : ∀ (a b : List (List Char)),
    (∀ p ∈ a, p ≠ [] ∧ goodPart p = true) →
    (∀ p ∈ b, p ≠ [] ∧ goodPart p = true) →
    comparePreList a b = -1 → comparePreList b a = 1
  | [], [] => by intro _ _ h; exact absurd h (by decide)
  | [], b0 :: bs => by
    intro _ hgb _
    have hb0 : b0 ≠ [] := (hgb b0 (by simp)).1
    rw [comparePreList_cons_nil]
    rw [comparePrePart_nil_right b0 hb0, if_pos (by decide)]
  | a0 :: as, [] => by
    intro hga _ h
    have ha0 : a0 ≠ [] := (hga a0 (by simp)).1
    rw [comparePreList_cons_nil] at h
    rw [comparePrePart_nil_right a0 ha0, if_pos (by decide)] at h
    exact absurd h (by decide)
  | a0 :: as, b0 :: bs => by
    intro hga hgb h
    rw [comparePreList_cons_cons] at h
    rw [comparePreList_cons_cons]
    by_cases hz : comparePrePart a0 b0 = 0
    · have hab : a0 = b0 := (comparePrePart_eq_zero_iff a0 b0).mp hz
      rw [if_neg (fun hC => hC hz)] at h
      subst hab
      rw [if_neg (fun hC => hC (comparePrePart_self a0))]
      exact comparePreList_neg_flip_good as bs
        (fun p hp => hga p (by simp [hp])) (fun p hp => hgb p (by simp [hp])) h
    · rw [if_pos hz] at h
      have hflip := comparePrePart_neg_flip_good a0 b0 (hga a0 (by simp)).2
        (hgb b0 (by simp)).2 (hga a0 (by simp)).1 (hgb b0 (by simp)).1 h
      rw [hflip, if_pos (by decide)]

theorem comparePreList_one_trans : ∀ (a b c : List (List Char)),
    comparePreList a b = 1 → comparePreList b c = 1 → comparePreList a c = 1
  | [], b, _ => fun h1 _ => absurd h1 (comparePreList_nil_left_ne_one b)
  | _ :: _, [], c => fun _ h2 => absurd h2 (comparePreList_nil_left_ne_one c)
  | a0 :: as, b0 :: bs, [] => by
    intro h1 h2
    rw [comparePreList_cons_cons] at h1
    rw [comparePreList_cons_nil] at h2
    rw [comparePreList_cons_nil]
    by_cases hz1 : comparePrePart a0 b0 = 0
    · have hab : a0 = b0 := (comparePrePart_eq_zero_iff a0 b0).mp hz1
      rw [if_neg (fun hC => hC hz1)] at h1
      subst hab
      by_cases hz2 : comparePrePart a0 [] = 0
      · rw [if_neg (fun hC => hC hz2)] at h2 ⊢
        exact comparePreList_one_trans as bs [] h1 h2
      · rw [if_pos hz2] at h2
        rw [if_pos hz2, h2]
    · rw [if_pos hz1] at h1
      have ha0 : a0 ≠ [] := by
        intro he
        subst he
        by_cases hb0 : b0 = []
        · subst hb0; rw [comparePrePart_self] at h1; exact absurd h1 (by decide)
        · rw [comparePrePart_nil_left b0 hb0] at h1; exact absurd h1 (by decide)
      rw [comparePrePart_nil_right a0 ha0, if_pos (by decide)]
  | a0 :: as, b0 :: bs, c0 :: cs => by
    intro h1 h2
    rw [comparePreList_cons_cons] at h1 h2 ⊢
    by_cases hz1 : comparePrePart a0 b0 = 0
    · have hab : a0 = b0 := (comparePrePart_eq_zero_iff a0 b0).mp hz1
      rw [if_neg (fun hC => hC hz1)] at h1
      subst hab
      by_cases hz2 : comparePrePart a0 c0 = 0
      · rw [if_neg (fun hC => hC hz2)] at h2 ⊢
        exact comparePreList_one_trans as bs cs h1 h2
      · rw [if_pos hz2] at h2 ⊢
        exact h2
    · rw [if_pos hz1] at h1
      by_cases hz2 : comparePrePart b0 c0 = 0
      · have hbc : b0 = c0 := (comparePrePart_eq_zero_iff b0 c0).mp hz2
        rw [← hbc]
        rw [if_pos hz1, h1]
      · rw [if_pos hz2] at h2
        have htr := comparePrePart_one_trans a0 b0 c0 h1 h2
        rw [if_pos (by rw [htr]; decide), htr]

theorem comparePreList_zero_congr : ∀ (a b : List (List Char)),
    comparePreList a b = 0 → ∀ c,
      comparePreList c a = comparePreList c b ∧
      comparePreList a c = comparePreList b c
  | [], [] => by intro _ c; exact ⟨rfl, rfl⟩
  | [], b0 :: bs => by
    intro h c
    rw [comparePreList_nil_cons] at h
    by_cases hz : comparePrePart [] b0 = 0
    · have hb0 : b0 = [] := ((comparePrePart_eq_zero_iff [] b0).mp hz).symm
      rw [if_neg (fun hC => hC hz)] at h
      subst hb0
      have ih := comparePreList_zero_congr [] bs h
      cases c with
      | nil =>
        constructor
        · show comparePreList [] [] = comparePreList [] ([] :: bs)
          rw [comparePreList_nil_cons,
            if_neg (fun hC => hC (comparePrePart_self []))]
          exact (ih []).1
        · show comparePreList [] [] = comparePreList ([] :: bs) []
          rw [comparePreList_cons_nil,
            if_neg (fun hC => hC (comparePrePart_self []))]
          exact (ih []).2
      | cons c0 cs =>
        constructor
        · show comparePreList (c0 :: cs) [] = comparePreList (c0 :: cs) ([] :: bs)
          rw [comparePreList_cons_nil, comparePreList_cons_cons]
          by_cases hc : comparePrePart c0 [] = 0
          · rw [if_neg (fun hC => hC hc), if_neg (fun hC => hC hc)]
            exact (ih cs).1
          · rw [if_pos hc, if_pos hc]
        · show comparePreList [] (c0 :: cs) = comparePreList ([] :: bs) (c0 :: cs)
          rw [comparePreList_nil_cons, comparePreList_cons_cons]
          by_cases hc : comparePrePart [] c0 = 0
          · have hc0 : c0 = [] := ((comparePrePart_eq_zero_iff [] c0).mp hc).symm
            subst hc0
            rw [if_neg (fun hC => hC hc), if_neg (fun hC => hC hc)]
            exact (ih cs).2
          · rw [if_pos hc, if_pos hc]
    · rw [if_pos hz] at h
      exact absurd h hz
  | a0 :: as, [] => by
    intro h c
    rw [comparePreList_cons_nil] at h
    by_cases hz : comparePrePart a0 [] = 0
    · have ha0 : a0 = [] := (comparePrePart_eq_zero_iff a0 []).mp hz
      rw [if_neg (fun hC => hC hz)] at h
      subst ha0
      have ih := comparePreList_zero_congr as [] h
      cases c with
      | nil =>
        constructor
        · show comparePreList [] ([] :: as) = comparePreList [] []
          rw [comparePreList_nil_cons,
            if_neg (fun hC => hC (comparePrePart_self []))]
          exact (ih []).1
        · show comparePreList ([] :: as) [] = comparePreList [] []
          rw [comparePreList_cons_nil,
            if_neg (fun hC => hC (comparePrePart_self []))]
          exact (ih []).2
      | cons c0 cs =>
        constructor
        · show comparePreList (c0 :: cs) ([] :: as) = comparePreList (c0 :: cs) []
          rw [comparePreList_cons_cons, comparePreList_cons_nil]
          by_cases hc : comparePrePart c0 [] = 0
          · rw [if_neg (fun hC => hC hc), if_neg (fun hC => hC hc)]
            exact (ih cs).1
          · rw [if_pos hc, if_pos hc]
        · show comparePreList ([] :: as) (c0 :: cs) = comparePreList [] (c0 :: cs)
          rw [comparePreList_cons_cons, comparePreList_nil_cons]
          by_cases hc : comparePrePart [] c0 = 0
          · have hc0 : c0 = [] := ((comparePrePart_eq_zero_iff [] c0).mp hc).symm
            subst hc0
            rw [if_neg (fun hC => hC hc), if_neg (fun hC => hC hc)]
            exact (ih cs).2
          · rw [if_pos hc, if_pos hc]
    · rw [if_pos hz] at h
      exact absurd h hz
  | a0 :: as, b0 :: bs => by
    intro h c
    rw [comparePreList_cons_cons] at h
    by_cases hz : comparePrePart a0 b0 = 0
    · have hab : a0 = b0 := (comparePrePart_eq_zero_iff a0 b0).mp hz
      rw [if_neg (fun hC => hC hz)] at h
      subst hab
      have ih := comparePreList_zero_congr as bs h
      cases c with
      | nil =>
        constructor
        · show comparePreList [] (a0 :: as) = comparePreList [] (a0 :: bs)
          rw [comparePreList_nil_cons, comparePreList_nil_cons]
          by_cases hc : comparePrePart [] a0 = 0
          · rw [if_neg (fun hC => hC hc), if_neg (fun hC => hC hc)]
            exact (ih []).1
          · rw [if_pos hc, if_pos hc]
        · show comparePreList (a0 :: as) [] = comparePreList (a0 :: bs) []
          rw [comparePreList_cons_nil, comparePreList_cons_nil]
          by_cases hc : comparePrePart a0 [] = 0
          · rw [if_neg (fun hC => hC hc), if_neg (fun hC => hC hc)]
            exact (ih []).2
          · rw [if_pos hc, if_pos hc]
      | cons c0 cs =>
        constructor
        · show comparePreList (c0 :: cs) (a0 :: as) = comparePreList (c0 :: cs) (a0 :: bs)
          rw [comparePreList_cons_cons, comparePreList_cons_cons]
          by_cases hc : comparePrePart c0 a0 = 0
          · rw [if_neg (fun hC => hC hc), if_neg (fun hC => hC hc)]
            exact (ih cs).1
          · rw [if_pos hc, if_pos hc]
        · show comparePreList (a0 :: as) (c0 :: cs) = comparePreList (a0 :: bs) (c0 :: cs)
          rw [comparePreList_cons_cons, comparePreList_cons_cons]
          by_cases hc : comparePrePart a0 c0 = 0
          · rw [if_neg (fun hC => hC hc), if_neg (fun hC => hC hc)]
            exact (ih cs).2
          · rw [if_pos hc, if_pos hc]
    · rw [if_pos hz] at h
      exact absurd h hz
termination_by a b => a.length + b.length

end ReleaseTracker

namespace ReleaseTracker

/-! ### Order-theoretic calculus for `svPreCmp` and `svCompare`

`Version.Compare` is not a linear order on arbitrary inputs (distinct
numerically-equal prerelease identifiers such as `01`/`1` compare `-1` in
*both* directions), but its value `1` is transitive, flips to `-1`, and
its value `0` is a congruence.  On *canonical* versions (`goodVer`) the
value `-1` also flips to `1`, restoring antisymmetry. -/

theorem goodPre_parts (p : String) (hg : goodPre p = true) (hp : p ≠ "") :
    ∀ q ∈ splitOnCh '.' p.data, q ≠ [] ∧ goodPart q = true := by
  intro q hq
  unfold goodPre at hg
  rw [Bool.or_eq_true] at hg
  rcases hg with hg | hg
  · exact absurd (of_decide_eq_true hg) hp
  · rw [List.all_eq_true] at hg
    have hgq := hg q hq
    rw [Bool.and_eq_true] at hgq
    refine ⟨?_, hgq.2⟩
    intro he
    subst he
    simp at hgq

theorem svPreCmp_self (p : String) : svPreCmp p p = 0 := by
  by_cases hp : p = "" <;>
    simp [svPreCmp, hp, comparePrerelease, comparePreList_self]

theorem svPreCmp_mem (a b : String) :
    svPreCmp a b = -1 ∨ svPreCmp a b = 0 ∨ svPreCmp a b = 1 := by
  unfold svPreCmp
  split_ifs
  · simp
  · simp
  · simp
  · exact comparePreList_mem _ _

theorem svPreCmp_one_flip (a b : String) (h : svPreCmp a b = 1) :
    svPreCmp b a = -1 := by
  by_cases ha : a = "" <;> by_cases hb : b = "" <;>
      simp [svPreCmp, comparePrerelease, ha, hb] at h ⊢
  exact comparePreList_one_flip _ _ h

theorem svPreCmp_one_trans (a b c : String) (h1 : svPreCmp a b = 1)
    (h2 : svPreCmp b c = 1) : svPreCmp a c = 1 := by
  by_cases ha : a = "" <;> by_cases hb : b = "" <;> by_cases hc : c = "" <;>
      simp [svPreCmp, comparePrerelease, ha, hb, hc] at h1 h2 ⊢
  exact comparePreList_one_trans _ _ _ h1 h2

theorem svPreCmp_zero_congr (a b : String) (h : svPreCmp a b = 0) (c : String) :
    svPreCmp c a = svPreCmp c b ∧ svPreCmp a c = svPreCmp b c := by
  by_cases ha : a = "" <;> by_cases hb : b = "" <;>
      simp [svPreCmp, comparePrerelease, ha, hb] at h
  · subst ha; subst hb; exact ⟨rfl, rfl⟩
  · by_cases hc : c = "" <;>
        simp [svPreCmp, comparePrerelease, ha, hb, hc]
    exact ⟨(comparePreList_zero_congr _ _ h _).1,
      (comparePreList_zero_congr _ _ h _).2⟩

theorem svPreCmp_neg_flip_good (a b : String) (hga : goodPre a = true)
    (hgb : goodPre b = true) (h : svPreCmp a b = -1) : svPreCmp b a = 1 := by
  by_cases ha : a = "" <;> by_cases hb : b = "" <;>
      simp [svPreCmp, comparePrerelease, ha, hb] at h ⊢
  exact comparePreList_neg_flip_good _ _
    (fun p hp => goodPre_parts a hga ha p hp)
    (fun p hp => goodPre_parts b hgb hb p hp) h

theorem svCompare_eq_def (v o : SemVersion) : svCompare v o =
    if v.major < o.major then -1 else if o.major < v.major then 1
    else if v.minor < o.minor then -1 else if o.minor < v.minor then 1
    else if v.patch < o.patch then -1 else if o.patch < v.patch then 1
    else svPreCmp v.pre o.pre := by
  unfold svCompare compareSegment
  dsimp only
  split_ifs <;> first | rfl | omega | (exfalso; omega)

theorem svCompare_self (v : SemVersion) : svCompare v v = 0 := by
  rw [svCompare_eq_def]
  simp [svPreCmp_self]

theorem svCompare_mem (a b : SemVersion) :
    svCompare a b = -1 ∨ svCompare a b = 0 ∨ svCompare a b = 1 := by
  rw [svCompare_eq_def]
  split_ifs <;> first | simp | exact svPreCmp_mem _ _

theorem svCompare_one_flip (a b : SemVersion) (h : svCompare a b = 1) :
    svCompare b a = -1 := by
  rw [svCompare_eq_def] at h ⊢
  split_ifs at h ⊢ <;>
    first
      | rfl
      | (exfalso; omega)
      | exact svPreCmp_one_flip _ _ h
      | (exfalso; exact absurd h (by decide))

set_option maxHeartbeats 1600000 in
theorem svCompare_one_trans (a b c : SemVersion) (h1 : svCompare a b = 1)
    (h2 : svCompare b c = 1) : svCompare a c = 1 := by
  rw [svCompare_eq_def] at h1 h2 ⊢
  split_ifs at h1 h2 ⊢ <;>
    first
      | rfl
      | (exfalso; omega)
      | exact svPreCmp_one_trans _ _ _ h1 h2
      | (exfalso; exact absurd h1 (by decide))
      | (exfalso; exact absurd h2 (by decide))

theorem svCompare_zero_congr (a b : SemVersion) (h : svCompare a b = 0)
    (c : SemVersion) :
    svCompare c a = svCompare c b ∧ svCompare a c = svCompare b c := by
  rw [svCompare_eq_def] at h
  split_ifs at h with h1 h2 h3 h4 h5 h6
  all_goals try exact absurd h (by decide)
  have hM : a.major = b.major := by omega
  have hm : a.minor = b.minor := by omega
  have hp : a.patch = b.patch := by omega
  constructor
  · rw [svCompare_eq_def, svCompare_eq_def, hM, hm, hp,
      (svPreCmp_zero_congr a.pre b.pre h c.pre).1]
  · rw [svCompare_eq_def, svCompare_eq_def, hM, hm, hp,
      (svPreCmp_zero_congr a.pre b.pre h c.pre).2]

theorem svCompare_neg_flip_good (a b : SemVersion) (hga : goodVer a = true)
    (hgb : goodVer b = true) (h : svCompare a b = -1) : svCompare b a = 1 := by
  rw [svCompare_eq_def] at h ⊢
  split_ifs at h ⊢ <;>
    first
      | rfl
      | (exfalso; omega)
      | exact svPreCmp_neg_flip_good _ _ hga hgb h
      | (exfalso; exact absurd h (by decide))

end ReleaseTracker

namespace ReleaseTracker

/-! ### `sort.Sort(semver.Collection)` produces a pairwise-ascending list

The five properties above (`self`, `one_flip`, `one_trans`, `zero_congr`,
`mem`) suffice for Go's insertion sort to emit a list in which *every* pair
(not merely adjacent ones) satisfies `svCompare a b ≤ 0`, even on
non-canonical inputs where `LessThan` fails to be a strict weak order. -/

theorem dropWhile_head_eq_false {α : Type} (f : α → Bool) :
    ∀ (l : List α) (y : α) (zs : List α), l.dropWhile f = y :: zs → f y = false
  | [], y, zs => by
    intro h
    simp [List.dropWhile] at h
  | a :: as, y, zs => by
    intro h
    rw [List.dropWhile_cons] at h
    split at h
    next => exact dropWhile_head_eq_false f as y zs h
    next hfa =>
      injection h with h1 _
      subst h1
      simpa using hfa

theorem goInsertPos_pairwise {α : Type} (cmp : α → α → Int)
    (hself : ∀ a, cmp a a = 0)
    (hflip : ∀ a b, cmp a b = 1 → cmp b a = -1)
    (htrans : ∀ a b c, cmp a b = 1 → cmp b c = 1 → cmp a c = 1)
    (hcongr : ∀ a b, cmp a b = 0 → ∀ c, cmp c a = cmp c b ∧ cmp a c = cmp b c)
    (hmem : ∀ a b, cmp a b = -1 ∨ cmp a b = 0 ∨ cmp a b = 1)
    (less : α → α → Bool) (hless : ∀ a b, less a b = true ↔ cmp a b < 0)
    (p : List α) (x : α)
    (hp : List.Pairwise (fun a b => cmp a b ≤ 0) p) :
    List.Pairwise (fun a b => cmp a b ≤ 0) (goInsertPos less p x) := by
  unfold goInsertPos
  dsimp only
  have hdecomp : p = (List.dropWhile (fun e => less x e) p.reverse).reverse
      ++ (List.takeWhile (fun e => less x e) p.reverse).reverse := by
    rw [← List.reverse_append, List.takeWhile_append_dropWhile,
      List.reverse_reverse]
  rw [hdecomp, List.pairwise_append] at hp
  obtain ⟨hD, hT, hDT⟩ := hp
  rw [List.pairwise_append]
  refine ⟨hD, ?_, ?_⟩
  · rw [List.pairwise_cons]
    refine ⟨?_, hT⟩
    intro v hv
    have hvT : v ∈ List.takeWhile (fun e => less x e) p.reverse := by
      rw [List.mem_reverse] at hv
      exact hv
    have hvtrue : less x v = true := List.mem_takeWhile_imp hvT
    have hlt : cmp x v < 0 := (hless x v).mp hvtrue
    omega
  · intro u hu v hv
    have hux : cmp u x ≤ 0 := by
      rw [List.mem_reverse] at hu
      cases hd : List.dropWhile (fun e => less x e) p.reverse with
      | nil =>
        rw [hd] at hu
        exact absurd hu (by simp)
      | cons y zs =>
        rw [hd] at hu
        have hy : less x y = false := dropWhile_head_eq_false _ p.reverse y zs hd
        have hxy : ¬ cmp x y < 0 := by
          intro hc
          rw [← hless x y] at hc
          rw [hy] at hc
          exact absurd hc (by decide)
        have hxy0 : cmp x y = 0 ∨ cmp x y = 1 := by
          rcases hmem x y with h | h | h
          · exact absurd (by omega : cmp x y < 0) hxy
          · exact Or.inl h
          · exact Or.inr h
        have hyx : cmp y x ≤ 0 := by
          rcases hxy0 with h0 | h1
          · have hc := (hcongr x y h0 y).1
            rw [hself y] at hc
            omega
          · have hc := hflip x y h1
            omega
        rcases List.mem_cons.mp hu with rfl | huz
        · exact hyx
        · have hD2 := hD
          rw [hd, List.reverse_cons, List.pairwise_append] at hD2
          obtain ⟨_, _, huy2⟩ := hD2
          have huy : cmp u y ≤ 0 :=
            huy2 u (by rw [List.mem_reverse]; exact huz) y (by simp)
          rcases hmem u x with h | h | h
          · omega
          · omega
          · exfalso
            rcases hxy0 with h0 | h1
            · have hc := (hcongr x y h0 u).1
              omega
            · have hc := htrans u x y h h1
              omega
    rcases List.mem_cons.mp hv with rfl | hvT
    · exact hux
    · exact hDT u hu v hvT

theorem insertionSortGo_pairwise {α : Type} (cmp : α → α → Int)
    (hself : ∀ a, cmp a a = 0)
    (hflip : ∀ a b, cmp a b = 1 → cmp b a = -1)
    (htrans : ∀ a b c, cmp a b = 1 → cmp b c = 1 → cmp a c = 1)
    (hcongr : ∀ a b, cmp a b = 0 → ∀ c, cmp c a = cmp c b ∧ cmp a c = cmp b c)
    (hmem : ∀ a b, cmp a b = -1 ∨ cmp a b = 0 ∨ cmp a b = 1)
    (less : α → α → Bool) (hless : ∀ a b, less a b = true ↔ cmp a b < 0)
    (l : List α) :
    List.Pairwise (fun a b => cmp a b ≤ 0) (insertionSortGo less l) := by
  unfold insertionSortGo
  suffices hgen : ∀ (m p : List α), List.Pairwise (fun a b => cmp a b ≤ 0) p →
      List.Pairwise (fun a b => cmp a b ≤ 0) (m.foldl (goInsertPos less) p) by
    exact hgen l [] List.Pairwise.nil
  intro m
  induction m with
  | nil =>
    intro p hp
    exact hp
  | cons a as ih =>
    intro p hp
    rw [List.foldl_cons]
    exact ih (goInsertPos less p a)
      (goInsertPos_pairwise cmp hself hflip htrans hcongr hmem less hless p a hp)

theorem svLessThan_iff (a b : SemVersion) :
    svLessThan a b = true ↔ svCompare a b < 0 := by
  simp [svLessThan]

theorem versionStringsToSemvers_sorted (vs : List String) (l : List SemVersion)
    (h : versionStringsToSemvers vs = .ok l) :
    List.Pairwise (fun a b => svCompare a b ≤ 0) l := by
  unfold versionStringsToSemvers at h
  split at h
  · exact absurd h (by simp)
  · injection h with h
    subst h
    exact insertionSortGo_pairwise svCompare svCompare_self svCompare_one_flip
      svCompare_one_trans svCompare_zero_congr svCompare_mem svLessThan
      svLessThan_iff _

theorem versionsToReleases_sorted (vs : List String) (rs : List Release)
    (h : versionsToReleases vs = .ok rs) :
    List.Pairwise (fun a b => svCompare a.Semver b.Semver ≤ 0) rs := by
  unfold versionsToReleases at h
  cases hv : versionStringsToSemvers vs with
  | error e =>
    rw [hv] at h
    exact absurd h (by simp)
  | ok vss =>
    rw [hv] at h
    injection h with h
    subst h
    exact List.Pairwise.map semverToRelease (fun a b hab => hab)
      (versionStringsToSemvers_sorted vs vss hv)

theorem providerAll_sorted (p : ReleaseProvider) (w : World) (rs : List Release)
    (h : providerAll p w = .ok rs) :
    List.Pairwise (fun a b => svCompare a.Semver b.Semver ≤ 0) rs := by
  cases p with
  | execProvider cmd =>
    simp only [providerAll, execAll] at h
    split at h
    · exact absurd h (by simp)
    · exact versionsToReleases_sorted _ _ h
  | getterJsonPathProvider spec =>
    simp only [providerAll] at h
    split at h
    · exact absurd h (by simp)
    · split at h
      · exact absurd h (by simp)
      · simp only [extractVersions] at h
        split at h
        · exact absurd h (by simp)
        · exact versionsToReleases_sorted _ _ h
  | httpJsonPathProvider url jp =>
    simp only [providerAll] at h
    split at h
    · exact absurd h (by simp)
    · split at h
      · exact absurd h (by simp)
      · simp only [extractVersions] at h
        split at h
        · exact absurd h (by simp)
        · exact versionsToReleases_sorted _ _ h

end ReleaseTracker

namespace ReleaseTracker

/-- **C10.**  Every release list a successful `GetReleases` call returns is
ascending under `Version.Compare`: every pair of elements, in order,
compares `≤ 0`.  Every success path of every provider funnels through
`versionsToSemvers`/`versionsToReleases`, which sorts the parsed versions
(`sort.Sort(semver.Collection(vss))`) before building the `Release`
values, and Go's `sort.Sort` (insertion sort at these sizes) establishes
exactly this pairwise postcondition for the Masterminds comparison — even
on exotic prerelease identifiers for which `LessThan` is not a strict weak
order. -/
theorem getReleases_sorted (spec : Spec) (w : World) (rs : List Release)
    (h : GetReleases spec w = .ok rs) :
    List.Pairwise (fun a b => svCompare a.Semver b.Semver ≤ 0) rs := by
  unfold GetReleases at h
  split at h
  · exact absurd h (by simp)
  · exact providerAll_sorted _ _ _ h

/-- Witness for C10: a jsonpath provider whose query returned
`["2.0.0", "1.0.0"]` yields a sorted release list. -/
theorem getReleases_sorted_witness :
    ∃ rs, GetReleases ⟨⟨⟨"data.yaml", "$.versions[*]", ""⟩, ⟨""⟩, ⟨"", ""⟩, ⟨""⟩⟩⟩
        ⟨⟨"", "", none⟩, none, Node.nullVal,
          .ok (Node.list [Node.str "2.0.0", Node.str "1.0.0"])⟩ = .ok rs ∧
      List.Pairwise (fun a b => svCompare a.Semver b.Semver ≤ 0) rs := by
  obtain ⟨rs, hrs⟩ : ∃ rs,
      GetReleases ⟨⟨⟨"data.yaml", "$.versions[*]", ""⟩, ⟨""⟩, ⟨"", ""⟩, ⟨""⟩⟩⟩
        ⟨⟨"", "", none⟩, none, Node.nullVal,
          .ok (Node.list [Node.str "2.0.0", Node.str "1.0.0"])⟩ = .ok rs :=
    ⟨_, rfl⟩
  exact ⟨rs, hrs, getReleases_sorted _ _ rs hrs⟩

end ReleaseTracker

namespace ReleaseTracker

/-! ### The `Latest` selection loop on canonical versions -/

theorem svCompare_not_lt (lv s : SemVersion) (h : ¬ svCompare lv s < 0) :
    svCompare s lv ≤ 0 := by
  rcases svCompare_mem lv s with h0 | h0 | h0
  · omega
  · have hc := (svCompare_zero_congr lv s h0 s).1
    rw [svCompare_self] at hc
    omega
  · have hc := svCompare_one_flip lv s h0
    omega

theorem svCompare_le_trans_good (a b c : SemVersion) (hga : goodVer a = true)
    (hgb : goodVer b = true) (hgc : goodVer c = true)
    (h1 : svCompare a b ≤ 0) (h2 : svCompare b c ≤ 0) : svCompare a c ≤ 0 := by
  by_contra hac
  have hac1 : svCompare a c = 1 := by
    rcases svCompare_mem a c with h | h | h <;> omega
  rcases svCompare_mem a b with hab | hab | hab
  · rcases svCompare_mem b c with hbc | hbc | hbc
    · have h1f := svCompare_neg_flip_good a b hga hgb hab
      have h2f := svCompare_neg_flip_good b c hgb hgc hbc
      have h3 := svCompare_one_trans c b a h2f h1f
      have h4 := svCompare_one_flip c a h3
      omega
    · have hc := (svCompare_zero_congr b c hbc a).1
      omega
    · omega
  · have hc := (svCompare_zero_congr a b hab c).2
    omega
  · omega

theorem latestLoop_spec (cons : List (List SvConstraint)) :
    ∀ (rest : List Release) (lv : SemVersion) (lat : Option Release),
      (∀ r ∈ rest, goodVer r.Semver = true) → goodVer lv = true →
      goodVer (latestLoop cons rest lv lat).1 = true ∧
      svCompare lv (latestLoop cons rest lv lat).1 ≤ 0 ∧
      (((latestLoop cons rest lv lat).1 = lv ∧
          (latestLoop cons rest lv lat).2 = lat) ∨
        ∃ r ∈ rest, (latestLoop cons rest lv lat).2 = some r ∧
          (latestLoop cons rest lv lat).1 = r.Semver ∧
          checkConstraints cons r.Semver = true) ∧
      ∀ s ∈ rest, checkConstraints cons s.Semver = true →
        svCompare s.Semver (latestLoop cons rest lv lat).1 ≤ 0
  | [], lv, lat => by
    intro _ hlv
    refine ⟨hlv, ?_, Or.inl ⟨rfl, rfl⟩, ?_⟩
    · have hz : svCompare lv lv ≤ 0 := by
        rw [svCompare_self]
      exact hz
    · intro s hs
      exact absurd hs (by simp)
  | r :: rest, lv, lat => by
    intro hg hlv
    have hgr : goodVer r.Semver = true := hg r (List.mem_cons_self r rest)
    have hgrest : ∀ s ∈ rest, goodVer s.Semver = true :=
      fun s hs => hg s (List.mem_cons_of_mem r hs)
    by_cases hchk : checkConstraints cons r.Semver = true
    · by_cases hlt : svLessThan lv r.Semver = true
      · have hred : latestLoop cons (r :: rest) lv lat
            = latestLoop cons rest r.Semver (some r) := by
          simp [latestLoop, hchk, hlt]
        rw [hred]
        obtain ⟨hg1, hle1, hprov, hmax⟩ :=
          latestLoop_spec cons rest r.Semver (some r) hgrest hgr
        refine ⟨hg1, ?_, ?_, ?_⟩
        · have hlt2 : svCompare lv r.Semver < 0 := (svLessThan_iff lv r.Semver).mp hlt
          exact svCompare_le_trans_good lv r.Semver _ hlv hgr hg1 (by omega) hle1
        · rcases hprov with ⟨hfv, hflat⟩ | ⟨r2, hr2, h1, h2, h3⟩
          · exact Or.inr ⟨r, List.mem_cons_self r rest, hflat, hfv, hchk⟩
          · exact Or.inr ⟨r2, List.mem_cons_of_mem r hr2, h1, h2, h3⟩
        · intro s hs hchks
          rcases List.mem_cons.mp hs with rfl | hs2
          · exact hle1
          · exact hmax s hs2 hchks
      · have hge : svLessThan lv r.Semver = false := by
          revert hlt
          cases svLessThan lv r.Semver <;> simp
        have hred : latestLoop cons (r :: rest) lv lat
            = latestLoop cons rest lv lat := by
          simp [latestLoop, hchk, hge]
        rw [hred]
        obtain ⟨hg1, hle1, hprov, hmax⟩ :=
          latestLoop_spec cons rest lv lat hgrest hlv
        refine ⟨hg1, hle1, ?_, ?_⟩
        · rcases hprov with hl | ⟨r2, hr2, h1, h2, h3⟩
          · exact Or.inl hl
          · exact Or.inr ⟨r2, List.mem_cons_of_mem r hr2, h1, h2, h3⟩
        · intro s hs hchks
          rcases List.mem_cons.mp hs with rfl | hs2
          · have hnlt : ¬ svCompare lv s.Semver < 0 := by
              intro hc
              rw [← svLessThan_iff] at hc
              rw [hge] at hc
              exact absurd hc (by decide)
            have hslv : svCompare s.Semver lv ≤ 0 := svCompare_not_lt lv s.Semver hnlt
            exact svCompare_le_trans_good s.Semver lv _ hgr hlv hg1 hslv hle1
          · exact hmax s hs2 hchks
    · have hchkf : checkConstraints cons r.Semver = false := by
        revert hchk
        cases checkConstraints cons r.Semver <;> simp
      have hred : latestLoop cons (r :: rest) lv lat
          = latestLoop cons rest lv lat := by
        simp [latestLoop, hchkf]
      rw [hred]
      obtain ⟨hg1, hle1, hprov, hmax⟩ :=
        latestLoop_spec cons rest lv lat hgrest hlv
      refine ⟨hg1, hle1, ?_, ?_⟩
      · rcases hprov with hl | ⟨r2, hr2, h1, h2, h3⟩
        · exact Or.inl hl
        · exact Or.inr ⟨r2, List.mem_cons_of_mem r hr2, h1, h2, h3⟩
      · intro s hs hchks
        rcases List.mem_cons.mp hs with rfl | hs2
        · rw [hchks] at hchkf
          exact absurd hchkf (by decide)
        · exact hmax s hs2 hchks

end ReleaseTracker

namespace ReleaseTracker

/-- **C1** (corrected).  On release lists whose versions are *canonical*
(`goodVer`: prerelease identifiers carry no leading zeros or signs — always
the case for strictly valid semver input), a successful `Latest` call
returns a release from the list that passes the compiled constraint and is
maximal under `Version.Compare` among all releases passing it.  The claim's
universal "strictly maximal survivor" reading fails on non-canonical
prereleases and on the version `0.0.0` (see the counterexample theorem);
the claim's concrete example (releases `0.9.0 1.0.0 1.2.3 2.0.0-rc.1`,
constraint `> 1.0.0`, result `1.2.3` with the prerelease excluded) is
discharged in the witness below. -/
theorem latest_filter_and_max (all : List Release) (constraint : String)
    (cons : List (List SvConstraint))
    (hgood : ∀ s ∈ all, goodVer s.Semver = true)
    (hcons : svNewConstraint (if constraint = "" then "> 0.0.0" else constraint)
      = .ok cons)
    (r : Release) (h : Latest all constraint = .ok r) :
    r ∈ all ∧ checkConstraints cons r.Semver = true ∧
      ∀ s ∈ all, checkConstraints cons s.Semver = true →
        svCompare s.Semver r.Semver ≤ 0 := by
  unfold Latest at h
  dsimp only at h
  rw [hcons] at h
  dsimp only at h
  obtain ⟨hgf, _, hprov, hmax⟩ :=
    latestLoop_spec cons all zeroVersion none hgood (by decide)
  cases hl : (latestLoop cons all zeroVersion none).2 with
  | none =>
    rw [hl] at h
    exact absurd h (by simp)
  | some latest =>
    rw [hl] at h
    injection h with h
    subst h
    rcases hprov with ⟨_, hflat⟩ | ⟨r2, hr2, hflat, hfv, hchk2⟩
    · rw [hl] at hflat
      exact absurd hflat (by simp)
    · rw [hl] at hflat
      injection hflat with hflat
      subst hflat
      refine ⟨hr2, hchk2, ?_⟩
      intro s hs hchks
      have hm := hmax s hs hchks
      rw [hfv] at hm
      exact hm

/-- Witness for C1 (amended) at the claim's own example: the canonical
releases `0.9.0 1.0.0 1.2.3 2.0.0-rc.1` under `> 1.0.0` select `1.2.3`,
the prerelease `2.0.0-rc.1` failing the constraint. -/
theorem latest_filter_and_max_witness :
    Latest [semverToRelease ⟨0,9,0,"","","0.9.0"⟩,
        semverToRelease ⟨1,0,0,"","","1.0.0"⟩,
        semverToRelease ⟨1,2,3,"","","1.2.3"⟩,
        semverToRelease ⟨2,0,0,"rc.1","","2.0.0-rc.1"⟩] "> 1.0.0"
      = .ok (semverToRelease ⟨1,2,3,"","","1.2.3"⟩) ∧
    svNewConstraint "> 1.0.0"
      = .ok [[⟨">", ⟨1,0,0,"","","1.0.0"⟩, "1.0.0", false, false, false⟩]] ∧
    checkConstraints [[⟨">", ⟨1,0,0,"","","1.0.0"⟩, "1.0.0", false, false, false⟩]]
      (⟨2,0,0,"rc.1","","2.0.0-rc.1"⟩ : SemVersion) = false ∧
    semverToRelease ⟨1,2,3,"","","1.2.3"⟩ ∈
      [semverToRelease ⟨0,9,0,"","","0.9.0"⟩,
        semverToRelease ⟨1,0,0,"","","1.0.0"⟩,
        semverToRelease ⟨1,2,3,"","","1.2.3"⟩,
        semverToRelease ⟨2,0,0,"rc.1","","2.0.0-rc.1"⟩] ∧
    checkConstraints [[⟨">", ⟨1,0,0,"","","1.0.0"⟩, "1.0.0", false, false, false⟩]]
      (⟨1,2,3,"","","1.2.3"⟩ : SemVersion) = true ∧
    ∀ s ∈ [semverToRelease ⟨0,9,0,"","","0.9.0"⟩,
        semverToRelease ⟨1,0,0,"","","1.0.0"⟩,
        semverToRelease ⟨1,2,3,"","","1.2.3"⟩,
        semverToRelease ⟨2,0,0,"rc.1","","2.0.0-rc.1"⟩],
      checkConstraints [[⟨">", ⟨1,0,0,"","","1.0.0"⟩, "1.0.0", false, false, false⟩]]
          s.Semver = true →
        svCompare s.Semver (semverToRelease ⟨1,2,3,"","","1.2.3"⟩).Semver ≤ 0 := by
  have happ := latest_filter_and_max
    [semverToRelease ⟨0,9,0,"","","0.9.0"⟩,
      semverToRelease ⟨1,0,0,"","","1.0.0"⟩,
      semverToRelease ⟨1,2,3,"","","1.2.3"⟩,
      semverToRelease ⟨2,0,0,"rc.1","","2.0.0-rc.1"⟩] "> 1.0.0"
    [[⟨">", ⟨1,0,0,"","","1.0.0"⟩, "1.0.0", false, false, false⟩]]
    (by decide) (by decide)
    (semverToRelease ⟨1,2,3,"","","1.2.3"⟩) (by decide)
  exact ⟨by decide, by decide, by decide, happ.1, happ.2.1,
    fun s hs hc => happ.2.2 s hs hc⟩

/-- Counterexample to C1 as stated.  (a) `Latest` can fail although a
release passing the constraint exists: the running maximum starts at the
zero `semver.Version{}` and is replaced only on a *strict* `LessThan`, so a
lone `0.0.0` survivor is never selected.  (b) On non-canonical prerelease
identifiers (`01`), `Version.Compare` is not an order and the selected
release need not be maximal: `Latest` picks `1.0.0-1.2` although the
survivor `1.0.0-1.9` compares strictly above it. -/
theorem latest_not_maximal_counterexample :
    (svNewConstraint "<= 1.0.0"
        = .ok [[⟨"<=", ⟨1,0,0,"","","1.0.0"⟩, "1.0.0", false, false, false⟩]] ∧
      checkConstraints [[⟨"<=", ⟨1,0,0,"","","1.0.0"⟩, "1.0.0", false, false, false⟩]]
        (⟨0,0,0,"","","0.0.0"⟩ : SemVersion) = true ∧
      Latest [semverToRelease ⟨0,0,0,"","","0.0.0"⟩] "<= 1.0.0"
        = .error "no semver matching \"<= 1.0.0\" found in [0.0.0]") ∧
    (svNewConstraint ">= 1.0.0-0"
        = .ok [[⟨">=", ⟨1,0,0,"0","","1.0.0-0"⟩, "1.0.0-0", false, false, false⟩]] ∧
      Latest [semverToRelease ⟨1,0,0,"1.9","","1.0.0-1.9"⟩,
          semverToRelease ⟨1,0,0,"01","","1.0.0-01"⟩,
          semverToRelease ⟨1,0,0,"1.2","","1.0.0-1.2"⟩] ">= 1.0.0-0"
        = .ok (semverToRelease ⟨1,0,0,"1.2","","1.0.0-1.2"⟩) ∧
      checkConstraints [[⟨">=", ⟨1,0,0,"0","","1.0.0-0"⟩, "1.0.0-0", false, false, false⟩]]
        (⟨1,0,0,"1.9","","1.0.0-1.9"⟩ : SemVersion) = true ∧
      svCompare ⟨1,0,0,"1.9","","1.0.0-1.9"⟩ ⟨1,0,0,"1.2","","1.0.0-1.2"⟩ = 1) :=
  ⟨⟨by decide, by decide, by decide⟩,
    by decide, by decide, by decide, by decide⟩

end ReleaseTracker
